import Mathlib

/-!
# Verification of the velu-cli navigation pipeline

Shallow embedding, in Lean 4, of the navigation-normalization and
build-artifact-generation pipeline of the velu-cli repository:

* the slug allocator (`slugify`, `uniqueSlug`) from
  `src/lib/navigation-normalize.mjs`;
* the navigation normalizer (`collectEntries`, `normalizeGroup`,
  `normalizeMenuItem`, `normalizeTabAsGroup`, `normalizeDropdownAsGroup`,
  `normalizeAnchorAsGroup`, `normalizeTab`, `normalizeNavigationTabs`);
* the artifact builder (`buildArtifacts`, `addGroup`, `metaEntry`,
  `trackFirstPage`) from the dev-server script;
* the content partitioner (`writeLangContent`, per-language mode of
  `rebuildFromConfig`), with file writes modelled as the computed plan of
  (directory, data) pairs that the JavaScript code hands to the writer.

JavaScript `Set` objects are modelled as `List String` with membership
(`has`) and insertion-order append (`add`); machine strings are Lean
`String`s; absent/`undefined` object fields are `Option.none`; JavaScript
truthiness on optional strings/booleans is made explicit.
-/

namespace Velu

/- ## Decimal rendering of naturals

`uniqueSlug` builds candidate slugs with the JavaScript template
`` `${base}-${count}` ``; the Lean embedding renders the counter with
`Nat.repr`, which is the same decimal rendering.  The lemmas below prove
that `Nat.repr` is injective and produces a non-empty string, which is
what the collision-probing argument needs. -/

/-- Numeric value of a decimal digit character. -/
def digitVal (c : Char) : Nat := c.toNat - 48

/-- Decimal read-back of a list of digit characters. -/
def parseDigits (l : List Char) : Nat := l.foldl (fun a c => 10 * a + digitVal c) 0

/- ## Slug allocator (`slugify`, `uniqueSlug`, navigation-normalize.mjs) -/

/-- Characters kept verbatim by slugify's `[^a-z0-9]` character class. -/
def isSlugChar (c : Char) : Bool := ('a' ≤ c && c ≤ 'z') || ('0' ≤ c && c ≤ '9')

/-- `.replace(/[^a-z0-9]+/g, '-')`: each maximal run of characters outside
`[a-z0-9]` becomes a single hyphen.  The flag records whether the previous
character belonged to such a run. -/
def collapseRuns : Bool → List Char → List Char
  | _, [] => []
  | inRun, c :: rest =>
    if isSlugChar c then c :: collapseRuns false rest
    else if inRun then collapseRuns true rest
    else '-' :: collapseRuns true rest

/-- `.replace(/^-+|-+$/g, '')`: strip leading and trailing hyphens. -/
def stripHyphens (l : List Char) : List Char :=
  ((l.dropWhile (fun c => c == '-')).reverse.dropWhile (fun c => c == '-')).reverse

/-- The slug body computed by `slugify` before the fallback test:
`String(input).toLowerCase().trim()` then the two regex replaces, modelled
character-wise (ASCII case mapping and whitespace, as relevant to slugs). -/
def slugCore (input : String) : String :=
  let lowered := input.data.map Char.toLower
  let trimmed :=
    ((lowered.dropWhile Char.isWhitespace).reverse.dropWhile Char.isWhitespace).reverse
  String.mk (stripHyphens (collapseRuns false trimmed))

/-- `slugify(input, fallback)` from the source: lowercase, trim, collapse
non-alphanumeric runs to hyphens, strip edge hyphens, fall back when empty. -/
def slugify (input fallback : String) : String :=
  if slugCore input = "" then fallback else slugCore input

/-- JS `Set.has` on the insertion-ordered list model. -/
def jsHas (used : List String) (s : String) : Bool := used.contains s

/-- JS `Set.add` on the insertion-ordered list model. -/
def jsAdd (used : List String) (s : String) : List String := used ++ [s]

/-- The candidate string `` `${base}-${count}` `` probed by `uniqueSlug`. -/
def slugCand (base : String) (count : Nat) : String := base ++ "-" ++ Nat.repr count

/-- The `while (used.has(`${base}-${count}`)) count += 1;` loop of
`uniqueSlug`.  The source loop carries no bound; `used.length + 1` steps
always suffice, because the probed candidates are pairwise distinct
(`repr_injective`) while `used` is finite, so the fuel-exhausted base case
is unreachable when called with that fuel. -/
def probeSlug (base : String) (used : List String) : Nat → Nat → String
  | count, 0 => slugCand base count
  | count, fuel + 1 =>
    if jsHas used (slugCand base count) then probeSlug base used (count + 1) fuel
    else slugCand base count

/-- `uniqueSlug(base, used)` from the source, with the mutation of the used
set made explicit: returns the reserved slug and the updated set. -/
def uniqueSlug (base : String) (used : List String) : String × List String :=
  if !jsHas used base then (base, jsAdd used base)
  else
    let candidate := probeSlug base used 2 (used.length + 1)
    (candidate, jsAdd used candidate)

/- ## Claim C2: iterated uniqueSlug on one set, same base -/

/-- The k-th (1-based) slug of the expected sequence `base, base-2, ...`. -/
def slugAt (base : String) (k : Nat) : String :=
  if k = 1 then base else slugCand base k

/-- The expected first n slugs `base, base-2, base-3, ..., base-n`. -/
def slugSeq (base : String) (n : Nat) : List String :=
  (List.range n).map (fun i => slugAt base (i + 1))

/-- N successive `uniqueSlug` calls with one base against a single threaded
set that starts empty; returns the results in call order and the final set. -/
def iterUniqueSlug (base : String) : Nat → List String × List String
  | 0 => ([], [])
  | n + 1 =>
    let p := iterUniqueSlug base n
    let q := uniqueSlug base p.2
    (p.1 ++ [q.1], q.2)

/- ## Canonical navigation tree (the normalizer's output shape) -/

/-- JS truthiness of an optional string field (`undefined` and `""` falsy). -/
def truthyStr : Option String → Bool
  | none => false
  | some s => !(s == "")

/-- JS truthiness of an optional boolean field. -/
def truthyBool : Option Bool → Bool
  | none => false
  | some b => b

mutual
/-- One entry of a canonical pages list: page reference string, separator
object, link object, or nested group object (discriminated in the source by
`typeof`/`in` checks). -/
inductive CEntry where
  | page (s : String)
  | sep (label : String)
  | link (href label : String) (icon : Option String)
  | group (g : CGroup)
/-- A canonical group as built by `normalizeGroup` and friends:
`{group, slug, pages}` plus optional icon/tag/expanded/description/hidden. -/
inductive CGroup where
  | mk (label slug : String) (icon tag description : Option String)
       (expanded hidden : Option Bool) (pages : List CEntry)
end

def CGroup.group : CGroup → String
  | .mk l _ _ _ _ _ _ _ => l

def CGroup.slug : CGroup → String
  | .mk _ s _ _ _ _ _ _ => s

def CGroup.icon : CGroup → Option String
  | .mk _ _ i _ _ _ _ _ => i

def CGroup.tag : CGroup → Option String
  | .mk _ _ _ t _ _ _ _ => t

def CGroup.description : CGroup → Option String
  | .mk _ _ _ _ d _ _ _ => d

def CGroup.expanded : CGroup → Option Bool
  | .mk _ _ _ _ _ e _ _ => e

def CGroup.hidden : CGroup → Option Bool
  | .mk _ _ _ _ _ _ h _ => h

def CGroup.pages : CGroup → List CEntry
  | .mk _ _ _ _ _ _ _ p => p

/-- A canonical tab as built by `normalizeTab`: `{tab, slug}` plus optional
icon, href (terminal link form), groups and pages (set only when
non-empty). -/
structure CTab where
  tab : String
  slug : String
  icon : Option String := none
  href : Option String := none
  groups : Option (List CGroup) := none
  pages : Option (List CEntry) := none

/- ## Artifact builder (`buildArtifacts`, dev-server script) -/

/-- `pageBasename(page)`: `page.split('/').pop()` — the text after the last
'/' (the whole string when there is none, empty when the string ends in
'/'), computed character-wise. -/
def pageBasename (page : String) : String :=
  String.mk (page.data.foldl (fun acc c => if c = '/' then [] else acc ++ [c]) [])

structure PageMapping where
  src : String
  dest : String
deriving DecidableEq

/-- The data record of one generated `meta.json`.  The source also copies an
`iconType` field when present, but canonical tabs/groups produced by the
normalizer never carry one, so it is omitted from the model. -/
structure MetaData where
  title : Option String := none
  root : Bool := false
  pages : List String := []
  defaultOpen : Option Bool := none
  icon : Option String := none
  description : Option String := none
deriving DecidableEq

structure MetaFile where
  dir : String
  data : MetaData
deriving DecidableEq

structure BuildArtifacts where
  pageMap : List PageMapping
  metaFiles : List MetaFile
  firstPage : String
deriving DecidableEq

/-- The inline encoding of a link entry: `[icon][label](href)` when the icon
is truthy, else `[label](href)`. -/
def linkEntry (href label : String) (icon : Option String) : String :=
  if truthyStr icon then
    "[" ++ icon.getD "" ++ "][" ++ label ++ "](" ++ href ++ ")"
  else
    "[" ++ label ++ "](" ++ href ++ ")"

/-- `metaEntry(item)` from the source; on a (canonically impossible in tab
pages, but representable) group object, `String(item)` yields the JS object
stringification. -/
def metaEntry : CEntry → String
  | .page s => s
  | .sep label => "---" ++ label ++ "---"
  | .link href label icon => linkEntry href label icon
  | .group _ => "[object Object]"

/-- The meta.json record `addGroup` emits for one group. -/
def groupMeta (title : String) (expanded : Option Bool) (icon description : Option String)
    (pages : List String) : MetaData :=
  { title := some title
    root := false
    pages := pages
    defaultOpen := some (!(expanded == some false))
    icon := if truthyStr icon then icon else none
    description := if truthyStr description then description else none }

mutual
/-- `addGroup(group, parentDir)`: returns the PageMappings and MetaFiles it
pushes, in push order (children's meta files precede the group's own). -/
def addGroup (g : CGroup) (parentDir : String) : List PageMapping × List MetaFile :=
  match g with
  | .mk label slug icon _tag description expanded _hidden pages =>
    let groupDir := parentDir ++ "/" ++ slug
    let w := walkGroupItems pages groupDir
    (w.1, w.2.1 ++ [⟨groupDir, groupMeta label expanded icon description w.2.2⟩])

/-- The `for (const item of group.pages || [])` loop body of `addGroup`:
returns pushed PageMappings, pushed MetaFiles, and the `pages` strings for
the group's own meta record. -/
def walkGroupItems : List CEntry → String → List PageMapping × List MetaFile × List String
  | [], _ => ([], [], [])
  | item :: rest, groupDir =>
    let r := walkGroupItems rest groupDir
    match item with
    | .page s =>
      let b := pageBasename s
      (⟨s, groupDir ++ "/" ++ b⟩ :: r.1, r.2.1, b :: r.2.2)
    | .group g =>
      let a := addGroup g groupDir
      (a.1 ++ r.1, a.2 ++ r.2.1,
        (if truthyBool g.hidden then "!" ++ g.slug else g.slug) :: r.2.2)
    | .sep label => (r.1, r.2.1, ("---" ++ label ++ "---") :: r.2.2)
    | .link href label icon => (r.1, r.2.1, linkEntry href label icon :: r.2.2)
end

/-- The `for (const group of tab.groups || [])` loop of `buildArtifacts`. -/
def walkTabGroups : List CGroup → String → List PageMapping × List MetaFile × List String
  | [], _ => ([], [], [])
  | g :: rest, tabSlug =>
    let a := addGroup g tabSlug
    let r := walkTabGroups rest tabSlug
    (a.1 ++ r.1, a.2 ++ r.2.1,
      (if truthyBool g.hidden then "!" ++ g.slug else g.slug) :: r.2.2)

/-- The `for (const item of tab.pages || [])` loop of `buildArtifacts`. -/
def walkTabPages : List CEntry → String → List PageMapping × List String
  | [], _ => ([], [])
  | item :: rest, tabSlug =>
    let r := walkTabPages rest tabSlug
    match item with
    | .page s =>
      let b := pageBasename s
      (⟨s, tabSlug ++ "/" ++ b⟩ :: r.1, b :: r.2)
    | other => (r.1, metaEntry other :: r.2)

/-- The meta.json record emitted for one root tab. -/
def tabMeta (t : CTab) (pages : List String) : MetaData :=
  { title := some t.tab
    root := true
    pages := pages
    defaultOpen := none
    icon := if truthyStr t.icon then t.icon else none
    description := none }

/-- One root tab's contribution: group walk, then direct pages, then the
tab's own meta file. -/
def buildTab (t : CTab) : List PageMapping × List MetaFile :=
  let g := walkTabGroups (t.groups.getD []) t.slug
  let p := walkTabPages (t.pages.getD []) t.slug
  (g.1 ++ p.1, g.2.1 ++ [⟨t.slug, tabMeta t (g.2.2 ++ p.2)⟩])

/-- The `for (const tab of rootTabs)` loop. -/
def walkTabs : List CTab → List PageMapping × List MetaFile
  | [] => ([], [])
  | t :: rest =>
    let b := buildTab t
    let r := walkTabs rest
    (b.1 ++ r.1, b.2 ++ r.2)

/-- The `trackFirstPage(dest)` state update: `(firstPage, hasFirstPage)`.
The source calls it exactly once per `pageMap.push`, in push order, so the
final state is this fold over the pushed list. -/
def trackFirstPage (st : String × Bool) (dest : String) : String × Bool :=
  if !st.2 then (dest, true) else st

/-- The root `meta.json` record (`{pages: rootPages}`). -/
def rootMetaData (pages : List String) : MetaData :=
  { title := none, root := false, pages := pages
    defaultOpen := none, icon := none, description := none }

/-- `buildArtifacts(config)` applied to the (already normalized) canonical
tab list `config.navigation.tabs`. -/
def buildArtifacts (tabs : List CTab) : BuildArtifacts :=
  let rootTabs := tabs.filter (fun t => !truthyStr t.href)
  let rootPages := rootTabs.map CTab.slug
  let w := walkTabs rootTabs
  let metaFiles :=
    w.2 ++ (if rootPages.length > 0 then [⟨"", rootMetaData rootPages⟩] else [])
  ⟨w.1, metaFiles,
    (w.1.foldl (fun st m => trackFirstPage st m.dest) ("quickstart", false)).1⟩

/- ## Spec-side description of destination paths (claim C1) -/

/-- Join path segments with '/'. -/
def joinSlash : List String → String
  | [] => ""
  | s :: rest => rest.foldl (fun acc x => acc ++ "/" ++ x) s

mutual
/-- Spec-side enumeration, for claim C1, of `(slug chain, src)` pairs of a
group subtree: a page's chain is the enclosing tab's slug followed by the
slugs of its enclosing groups, in nesting order. -/
def specGroupRefs (g : CGroup) (chain : List String) : List (List String × String) :=
  match g with
  | .mk _ slug _ _ _ _ _ pages => specItemRefs pages (chain ++ [slug])

/-- Spec-side enumeration of `(slug chain, src)` pairs of an entry list. -/
def specItemRefs : List CEntry → List String → List (List String × String)
  | [], _ => []
  | item :: rest, chain =>
    (match item with
     | .page s => [(chain, s)]
     | .group g => specGroupRefs g chain
     | .sep _ => []
     | .link _ _ _ => []) ++ specItemRefs rest chain
end

/-- Spec-side enumeration of `(slug chain, src)` pairs of one tab: groups
first (as the builder traverses them), then the tab's direct pages. -/
def specTabRefs (t : CTab) : List (List String × String) :=
  ((t.groups.getD []).map (fun g => specGroupRefs g [t.slug])).flatten
    ++ ((t.pages.getD []).map
        (fun e => match e with
          | CEntry.page s => [([t.slug], s)]
          | _ => [])).flatten

/-- Spec-side enumeration over a whole canonical tab list (link-tabs are
not content-generating). -/
def specRefs (tabs : List CTab) : List (List String × String) :=
  ((tabs.filter (fun t => !truthyStr t.href)).map specTabRefs).flatten

/-- Render one spec-side reference into its claimed PageMapping: the chain
slugs then the basename of src, joined with '/'. -/
def specMapping (r : List String × String) : PageMapping :=
  ⟨r.2, joinSlash (r.1 ++ [pageBasename r.2])⟩

/-- A canonical link-tab, used in counterexamples. -/
def linkTabX : CTab := { tab := "X", slug := "x", href := some "https://example.com" }

/-- A minimal canonical content tab, used in witnesses. -/
def tTab : CTab := { tab := "T", slug := "t", pages := some [CEntry.page "p"] }

/- ## Raw navigation documents (user-authored JSON) -/

/-- The object fields the normalizer inspects, over the child-value type
`α`.  A field that is absent, or whose JS value has the wrong type for the
reading code (`typeof`/`Array.isArray` guards), is `none`. -/
structure RawFields (α : Type) where
  tab : Option String := none
  group : Option String := none
  item : Option String := none
  anchor : Option String := none
  dropdown : Option String := none
  separator : Option String := none
  href : Option String := none
  label : Option String := none
  icon : Option String := none
  slug : Option String := none
  tag : Option String := none
  description : Option String := none
  product : Option String := none
  version : Option String := none
  language : Option String := none
  expanded : Option Bool := none
  hidden : Option Bool := none
  pages : Option (List α) := none
  groups : Option (List α) := none
  menu : Option (List α) := none
  tabs : Option (List α) := none
  dropdowns : Option (List α) := none
  anchors : Option (List α) := none
  products : Option (List α) := none
  versions : Option (List α) := none
  languages : Option (List α) := none

/-- A raw JSON-ish navigation value: a string (page reference) or an
object. -/
inductive Raw where
  | str (s : String)
  | node (f : RawFields Raw)

/-- Property access: every modelled field of a JS string primitive reads as
`undefined`, so a string exposes the all-`none` field record. -/
def Raw.fields : Raw → RawFields Raw
  | .str _ => {}
  | .node f => f

/-- An object with no fields (used where the source builds `{tab, slug,
href}`-style literals without content fields). -/
def emptyRawNode : Raw := .node {}

/-- `isObject(value)`. -/
def isObjectRaw : Raw → Bool
  | .str _ => false
  | .node _ => true

/-- `isSeparator(value)`. -/
def isSeparatorRaw (v : Raw) : Bool := v.fields.separator.isSome

/-- `isLink(value)`. -/
def isLinkRaw (v : Raw) : Bool := v.fields.href.isSome && v.fields.label.isSome

/-- `isGroupLike(value)`. -/
def isGroupLikeRaw (v : Raw) : Bool := v.fields.group.isSome

/-- `isMenuItem(value)`. -/
def isMenuItemRaw (v : Raw) : Bool := v.fields.item.isSome

/-- `isTabLike(value)`. -/
def isTabLikeRaw (v : Raw) : Bool := v.fields.tab.isSome

/-- `isAnchorLike(value)`. -/
def isAnchorLikeRaw (v : Raw) : Bool := v.fields.anchor.isSome

/-- `isDropdownLike(value)`. -/
def isDropdownLikeRaw (v : Raw) : Bool := v.fields.dropdown.isSome

/-- `Array.isArray(x) && x.length > 0` for an optional list field. -/
def hasNonEmptyList : Option (List Raw) → Bool
  | some l => !l.isEmpty
  | none => false

/-- The anchor-with-nested-content test inside `hasContent`. -/
def anchorNested (a : Raw) : Bool :=
  hasNonEmptyList a.fields.tabs || hasNonEmptyList a.fields.groups
    || hasNonEmptyList a.fields.pages || hasNonEmptyList a.fields.menu
    || hasNonEmptyList a.fields.anchors || hasNonEmptyList a.fields.dropdowns

/-- `hasContent(value)` from the source. -/
def hasContent (v : Raw) : Bool :=
  (hasNonEmptyList v.fields.pages || hasNonEmptyList v.fields.groups
      || hasNonEmptyList v.fields.menu || hasNonEmptyList v.fields.tabs
      || hasNonEmptyList v.fields.dropdowns)
    || (match v.fields.anchors with
        | some l => l.any (fun a => isAnchorLikeRaw a && anchorNested a)
        | none => false)

/-- `normalizeLink(value)`: `{href, label}` plus `icon` when it is a
non-empty string. -/
def normalizeLink (v : Raw) : CEntry :=
  CEntry.link (v.fields.href.getD "") (v.fields.label.getD "")
    (if truthyStr v.fields.icon then v.fields.icon else none)

/-- `normalizeAnchorLink(value)`: href defaults to "#", label to "Link",
icon kept when truthy. -/
def normalizeAnchorLink (v : Raw) : CEntry :=
  CEntry.link (v.fields.href.getD "#") (v.fields.anchor.getD "Link")
    (if truthyStr v.fields.icon then v.fields.icon else none)

/-- Placeholder group for the fuel-exhausted case of the normalizer.  The
source recursion is bounded by the (finite, acyclic) input document, so
every run below is performed with more than enough fuel and never reaches
this value. -/
def emptyCGroup : CGroup := CGroup.mk "" "" none none none none none []

/- The normalizer's recursive core.  The JavaScript recursion descends the
raw document; the embedding adds an explicit fuel argument (consumed once
per call layer) so that every function is structural and computable by the
kernel.  All claims below are either fuel-uniform (both sides of an
equation consume fuel identically) or evaluated at an explicit, ample
fuel. -/

mutual
/-- `collectEntries(rawSection, usedGroupSlugs)`: visit `menu`, `groups`,
`pages`, `anchors`, `dropdowns`, `tabs` in that order, threading the used
slug set, and concatenate the normalized entries. -/
def collectEntries : Nat → Raw → List String → List CEntry × List String
  | 0, _, used => ([], used)
  | fuel + 1, r, used =>
    let m := collectMenuList fuel (r.fields.menu.getD []) used
    let g := collectGroupList fuel (r.fields.groups.getD []) m.2
    let p := collectPageList fuel (r.fields.pages.getD []) g.2
    let a := collectAnchorList fuel (r.fields.anchors.getD []) p.2
    let d := collectDropdownList fuel (r.fields.dropdowns.getD []) a.2
    let t := collectTabList fuel (r.fields.tabs.getD []) d.2
    (m.1 ++ (g.1 ++ (p.1 ++ (a.1 ++ (d.1 ++ t.1)))), t.2)

/-- The `menu` loop of `collectEntries`. -/
def collectMenuList : Nat → List Raw → List String → List CEntry × List String
  | 0, _, used => ([], used)
  | _ + 1, [], used => ([], used)
  | fuel + 1, x :: rest, used =>
    if isMenuItemRaw x then
      let n := normalizeMenuItem fuel x used
      let r := collectMenuList fuel rest n.2
      (CEntry.group n.1 :: r.1, r.2)
    else collectMenuList fuel rest used

/-- The `groups` loop of `collectEntries`. -/
def collectGroupList : Nat → List Raw → List String → List CEntry × List String
  | 0, _, used => ([], used)
  | _ + 1, [], used => ([], used)
  | fuel + 1, x :: rest, used =>
    if isGroupLikeRaw x then
      let n := normalizeGroup fuel x used
      let r := collectGroupList fuel rest n.2
      (CEntry.group n.1 :: r.1, r.2)
    else collectGroupList fuel rest used

/-- The `pages` loop of `collectEntries`: strings stay page references,
separators and links keep their shapes, group-shaped objects recurse. -/
def collectPageList : Nat → List Raw → List String → List CEntry × List String
  | 0, _, used => ([], used)
  | _ + 1, [], used => ([], used)
  | fuel + 1, x :: rest, used =>
    match x with
    | .str s =>
      let r := collectPageList fuel rest used
      (CEntry.page s :: r.1, r.2)
    | .node _ =>
      if isSeparatorRaw x then
        let r := collectPageList fuel rest used
        (CEntry.sep (x.fields.separator.getD "") :: r.1, r.2)
      else if isLinkRaw x then
        let r := collectPageList fuel rest used
        (normalizeLink x :: r.1, r.2)
      else if isGroupLikeRaw x then
        let n := normalizeGroup fuel x used
        let r := collectPageList fuel rest n.2
        (CEntry.group n.1 :: r.1, r.2)
      else collectPageList fuel rest used

/-- The `anchors` loop of `collectEntries`: href-only anchors become bare
links, anchors with content become synthetic groups. -/
def collectAnchorList : Nat → List Raw → List String → List CEntry × List String
  | 0, _, used => ([], used)
  | _ + 1, [], used => ([], used)
  | fuel + 1, x :: rest, used =>
    if !isAnchorLikeRaw x then collectAnchorList fuel rest used
    else if truthyStr x.fields.href && !hasContent x then
      let r := collectAnchorList fuel rest used
      (normalizeAnchorLink x :: r.1, r.2)
    else
      let n := normalizeAnchorAsGroup fuel x used
      let r := collectAnchorList fuel rest n.2
      (CEntry.group n.1 :: r.1, r.2)

/-- The `dropdowns` loop of `collectEntries` (`normalizeDropdownAsGroup`:
the source re-tags the dropdown as a tab-shaped object whose scalar fields
are the dropdown's and whose content fields coincide with the original
node's; the embedding passes the scalars and the node itself). -/
def collectDropdownList : Nat → List Raw → List String → List CEntry × List String
  | 0, _, used => ([], used)
  | _ + 1, [], used => ([], used)
  | fuel + 1, x :: rest, used =>
    if isDropdownLikeRaw x then
      let n := normalizeTabAsGroupCore fuel x.fields.dropdown x.fields.slug
        x.fields.icon x.fields.href x used
      let r := collectDropdownList fuel rest n.2
      (CEntry.group n.1 :: r.1, r.2)
    else collectDropdownList fuel rest used

/-- The `tabs` loop of `collectEntries` (nested tabs fold to groups). -/
def collectTabList : Nat → List Raw → List String → List CEntry × List String
  | 0, _, used => ([], used)
  | _ + 1, [], used => ([], used)
  | fuel + 1, x :: rest, used =>
    if isTabLikeRaw x then
      let n := normalizeTabAsGroupCore fuel x.fields.tab x.fields.slug
        x.fields.icon x.fields.href x used
      let r := collectTabList fuel rest n.2
      (CEntry.group n.1 :: r.1, r.2)
    else collectTabList fuel rest used

/-- `normalizeGroup(rawGroup, usedGroupSlugs)`. -/
def normalizeGroup : Nat → Raw → List String → CGroup × List String
  | 0, _, used => (emptyCGroup, used)
  | fuel + 1, r, used =>
    let groupName := r.fields.group.getD "Group"
    let rawSlug := r.fields.slug.getD groupName
    let u := uniqueSlug (slugify rawSlug "group") used
    let c := collectEntries fuel r []
    (CGroup.mk groupName u.1 r.fields.icon r.fields.tag r.fields.description
      r.fields.expanded r.fields.hidden c.1, u.2)

/-- `normalizeMenuItem(rawItem, usedGroupSlugs)`. -/
def normalizeMenuItem : Nat → Raw → List String → CGroup × List String
  | 0, _, used => (emptyCGroup, used)
  | fuel + 1, r, used =>
    let name := r.fields.item.getD "Menu"
    let rawSlug := r.fields.slug.getD name
    let u := uniqueSlug (slugify rawSlug "menu") used
    let c := collectEntries fuel r []
    (CGroup.mk name u.1 r.fields.icon none none none none c.1, u.2)

/-- `normalizeAnchorAsGroup(rawAnchor, usedGroupSlugs)`. -/
def normalizeAnchorAsGroup : Nat → Raw → List String → CGroup × List String
  | 0, _, used => (emptyCGroup, used)
  | fuel + 1, r, used =>
    let anchorName := r.fields.anchor.getD "Anchor"
    let rawSlug := r.fields.slug.getD anchorName
    let u := uniqueSlug (slugify rawSlug "anchor") used
    let c := collectEntries fuel r []
    (CGroup.mk anchorName u.1 r.fields.icon none none none none c.1, u.2)

/-- `normalizeTabAsGroup(rawTab, usedGroupSlugs)` parameterized on the
scalar fields read from the (possibly re-tagged) tab object; `content`
carries the six content fields, which `collectEntries`/`hasContent` alone
inspect. -/
def normalizeTabAsGroupCore :
    Nat → Option String → Option String → Option String → Option String →
    Raw → List String → CGroup × List String
  | 0, _, _, _, _, _, used => (emptyCGroup, used)
  | fuel + 1, tabName?, slug?, icon?, href?, content, used =>
    let tabName := tabName?.getD "Tab"
    let rawSlug := slug?.getD tabName
    let u := uniqueSlug (slugify rawSlug "tab") used
    let c := collectEntries fuel content []
    let pages :=
      if truthyStr href? && !hasContent content then
        c.1 ++ [CEntry.link (href?.getD "") tabName icon?]
      else c.1
    (CGroup.mk tabName u.1 icon? none none none none pages, u.2)
end

/-- `normalizeTabAsGroup(rawTab, usedGroupSlugs)` on a tab-shaped node. -/
def normalizeTabAsGroup (fuel : Nat) (r : Raw) (used : List String) : CGroup × List String :=
  normalizeTabAsGroupCore fuel r.fields.tab r.fields.slug r.fields.icon r.fields.href r used

/-- `normalizeDropdownAsGroup(rawDropdown, usedGroupSlugs)`. -/
def normalizeDropdownAsGroup (fuel : Nat) (r : Raw) (used : List String) :
    CGroup × List String :=
  normalizeTabAsGroupCore fuel r.fields.dropdown r.fields.slug r.fields.icon
    r.fields.href r used

/-- `normalizeTab(rawTab, usedTabSlugs, slugPrefix)` parameterized on the
scalar fields of the (possibly re-tagged) raw tab; `content` carries the
content fields. -/
def normalizeTabCore (fuel : Nat) (tabName? slug? icon? href? : Option String)
    (content : Raw) (used : List String) (pfx : String) : CTab × List String :=
  let tabName := tabName?.getD "Tab"
  let rawSlug := slug?.getD tabName
  let tabSlugPart := slugify rawSlug "tab"
  let fullSlug := if pfx ≠ "" then pfx ++ "/" ++ tabSlugPart else tabSlugPart
  let u := uniqueSlug fullSlug used
  if truthyStr href? && !hasContent content then
    ({ tab := tabName, slug := u.1, icon := icon?, href := href? }, u.2)
  else
    let c := collectEntries fuel content []
    let gs := c.1.filterMap (fun e => match e with
      | CEntry.group g => some g
      | _ => none)
    let ps := c.1.filter (fun e => match e with
      | CEntry.group _ => false
      | _ => true)
    ({ tab := tabName, slug := u.1, icon := icon?, href := none,
       groups := if gs.length > 0 then some gs else none,
       pages := if ps.length > 0 then some ps else none }, u.2)

/-- `normalizeTab(rawTab, usedTabSlugs, slugPrefix)`. -/
def normalizeTab (fuel : Nat) (r : Raw) (used : List String) (pfx : String) :
    CTab × List String :=
  normalizeTabCore fuel r.fields.tab r.fields.slug r.fields.icon r.fields.href r used pfx

/-- `normalizeDropdownToTab(rawDropdown, usedTabSlugs, slugPrefix)`. -/
def normalizeDropdownToTab (fuel : Nat) (r : Raw) (used : List String) (pfx : String) :
    CTab × List String :=
  normalizeTabCore fuel r.fields.dropdown r.fields.slug r.fields.icon r.fields.href
    r used pfx

/-- `normalizeTabList(rawTabs, usedTabSlugs, slugPrefix)`. -/
def normalizeTabList (fuel : Nat) : List Raw → List String → String → List CTab × List String
  | [], used, _ => ([], used)
  | x :: rest, used, pfx =>
    if isTabLikeRaw x then
      let n := normalizeTab fuel x used pfx
      let r := normalizeTabList fuel rest n.2 pfx
      (n.1 :: r.1, r.2)
    else normalizeTabList fuel rest used pfx

/-- `normalizeDropdownList(rawDropdowns, usedTabSlugs, slugPrefix)`. -/
def normalizeDropdownList (fuel : Nat) :
    List Raw → List String → String → List CTab × List String
  | [], used, _ => ([], used)
  | x :: rest, used, pfx =>
    if isDropdownLikeRaw x then
      let n := normalizeDropdownToTab fuel x used pfx
      let r := normalizeDropdownList fuel rest n.2 pfx
      (n.1 :: r.1, r.2)
    else normalizeDropdownList fuel rest used pfx

/-- The `navigation.products.forEach((product, index) => ...)` stage; `idx`
is `index + 1` (the 1-based number used in fallback labels). -/
def normalizeProducts (fuel : Nat) : List Raw → List String → Nat → List CTab × List String
  | [], used, _ => ([], used)
  | p :: rest, used, idx =>
    if !isObjectRaw p then normalizeProducts fuel rest used (idx + 1)
    else
      let productName := p.fields.product.getD ("Product " ++ Nat.repr idx)
      let pfx := slugify productName ("product-" ++ Nat.repr idx)
      let t1 := normalizeTabList fuel (p.fields.tabs.getD []) used pfx
      let t2 := normalizeDropdownList fuel (p.fields.dropdowns.getD []) t1.2 pfx
      let t3 :=
        if p.fields.tabs.isNone && p.fields.dropdowns.isNone then
          if hasContent p then
            let n := normalizeTabCore fuel (some productName) (some pfx)
              p.fields.icon none p t2.2 ""
            ([n.1], n.2)
          else if truthyStr p.fields.href then
            let n := normalizeTabCore fuel (some productName) (some pfx)
              p.fields.icon p.fields.href emptyRawNode t2.2 ""
            ([n.1], n.2)
          else ([], t2.2)
        else ([], t2.2)
      let r := normalizeProducts fuel rest t3.2 (idx + 1)
      (t1.1 ++ t2.1 ++ t3.1 ++ r.1, r.2)

/-- The `navigation.versions.forEach((version, index) => ...)` stage (note:
the synthesized version tabs carry no icon in the source). -/
def normalizeVersions (fuel : Nat) : List Raw → List String → Nat → List CTab × List String
  | [], used, _ => ([], used)
  | v :: rest, used, idx =>
    if !isObjectRaw v then normalizeVersions fuel rest used (idx + 1)
    else
      let versionName := v.fields.version.getD ("Version " ++ Nat.repr idx)
      let pfx := slugify versionName ("version-" ++ Nat.repr idx)
      let t1 := normalizeTabList fuel (v.fields.tabs.getD []) used pfx
      let t2 := normalizeDropdownList fuel (v.fields.dropdowns.getD []) t1.2 pfx
      let t3 :=
        if v.fields.tabs.isNone && v.fields.dropdowns.isNone then
          if hasContent v then
            let n := normalizeTabCore fuel (some versionName) (some pfx)
              none none v t2.2 ""
            ([n.1], n.2)
          else if truthyStr v.fields.href then
            let n := normalizeTabCore fuel (some versionName) (some pfx)
              none v.fields.href emptyRawNode t2.2 ""
            ([n.1], n.2)
          else ([], t2.2)
        else ([], t2.2)
      let r := normalizeVersions fuel rest t3.2 (idx + 1)
      (t1.1 ++ t2.1 ++ t3.1 ++ r.1, r.2)

/-- The `navigation.anchors.forEach((anchor, index) => ...)` stage. -/
def normalizeAnchorsTop (fuel : Nat) : List Raw → List String → Nat → List CTab × List String
  | [], used, _ => ([], used)
  | a :: rest, used, idx =>
    if !isAnchorLikeRaw a then normalizeAnchorsTop fuel rest used (idx + 1)
    else
      let anchorName := a.fields.anchor.getD ("Anchor " ++ Nat.repr idx)
      let pfx := slugify anchorName ("anchor-" ++ Nat.repr idx)
      let t :=
        match a.fields.tabs with
        | some l => normalizeTabList fuel l used pfx
        | none =>
          if hasContent a then
            let n := normalizeTabCore fuel (some anchorName) (some pfx)
              a.fields.icon none a used ""
            ([n.1], n.2)
          else ([], used)
      let r := normalizeAnchorsTop fuel rest t.2 (idx + 1)
      (t.1 ++ r.1, r.2)

/-- The pre-fallback assembly of `normalizeNavigationTabs`: direct tabs,
dropdowns, products, versions, anchors, in the source's fixed order. -/
def assembleTabs (fuel : Nat) (nav : Raw) (used0 : List String) :
    List CTab × List String :=
  let s1 := normalizeTabList fuel (nav.fields.tabs.getD []) used0 ""
  let s2 := normalizeDropdownList fuel (nav.fields.dropdowns.getD []) s1.2 ""
  let s3 := normalizeProducts fuel (nav.fields.products.getD []) s2.2 1
  let s4 := normalizeVersions fuel (nav.fields.versions.getD []) s3.2 1
  let s5 := normalizeAnchorsTop fuel (nav.fields.anchors.getD []) s4.2 1
  (s1.1 ++ s2.1 ++ s3.1 ++ s4.1 ++ s5.1, s5.2)

/-- `normalizeNavigationTabs(navigation, usedTabSlugs)`: the assembly above
plus the synthesized "Documentation" fallback tab (whose content fields are
the navigation's own). -/
def normalizeNavigationTabs (fuel : Nat) (nav : Raw) (used0 : List String) :
    List CTab × List String :=
  if !isObjectRaw nav then ([], used0)
  else
    let s := assembleTabs fuel nav used0
    if s.1.isEmpty
        && (hasNonEmptyList nav.fields.groups || hasNonEmptyList nav.fields.pages
            || hasNonEmptyList nav.fields.menu) then
      let n := normalizeTabCore fuel (some "Documentation") (some "documentation")
        none none nav s.2 ""
      (s.1 ++ [n.1], n.2)
    else s

/- ## Concrete raw documents used by the claims -/

/-- `{group: "Guides", pages: ["intro"]}`. -/
def gNode : Raw := Raw.node { group := some "Guides", pages := some [Raw.str "intro"] }

/-- A tab labeled "Guides" holding two groups both labeled "Guides". -/
def guidesTab : Raw := Raw.node { tab := some "Guides", groups := some [gNode, gNode] }

/-- The spec's end-to-end example navigation. -/
def guidesConfig : Raw := Raw.node { tabs := some [guidesTab] }

/-- The fields of `{navigation: {pages: ["a", "b"]}}`'s navigation object. -/
def abFields : RawFields Raw := { pages := some [Raw.str "a", Raw.str "b"] }

/-- `{navigation: {pages: ["a", "b"]}}`'s navigation object. -/
def abConfig : Raw := Raw.node abFields

/-- `{group: "!!!"}` — a label that slugifies to the empty string. -/
def gBad : Raw := Raw.node { group := some "!!!" }

/-- `{item: "!!!"}`. -/
def mBad : Raw := Raw.node { item := some "!!!" }

/-- `{dropdown: "!!!"}`. -/
def dBad : Raw := Raw.node { dropdown := some "!!!" }

/-- `{tab: "X", href: "https://example.com"}` — a link-only raw tab. -/
def linkRawTab : Raw := Raw.node { tab := some "X", href := some "https://example.com" }

/-- `{group: "Docs", pages: ["a"], icon: "book"}` (C6 witness). -/
def docsGroupNode : Raw :=
  Raw.node { group := some "Docs", pages := some [Raw.str "a"], icon := some "book" }

/-- `{item: "Docs", pages: ["a"], icon: "book"}` (C6 witness). -/
def docsMenuNode : Raw :=
  Raw.node { item := some "Docs", pages := some [Raw.str "a"], icon := some "book" }

/-- `{tab: "X", href: "https://example.com", pages: ["p"]}` — href plus content. -/
def hrefContentTab : Raw :=
  Raw.node { tab := some "X", href := some "https://example.com", pages := some [Raw.str "p"] }

/-- The same raw value with the `href` field removed (used to state that
content wins over href in `normalizeTab`). -/
def Raw.clearHref : Raw → Raw
  | .str s => .str s
  | .node f => .node { f with href := none }

/-- The canonical tab the C7 example must produce. -/
def docTabAB : CTab :=
  { tab := "Documentation"
    slug := "documentation"
    pages := some [CEntry.page "a", CEntry.page "b"] }

/- ## Content partitioner (`writeLangContent`, per-language mode) -/

/-- One normalized `navigation.languages` entry as the partitioner consumes
it: its language code and its own normalized tab list. -/
structure LangEntry where
  language : String
  tabs : List CTab

/-- The write plan `writeLangContent` computes for one partition: the file
writes themselves are external I/O; the plan records what is written where
(paths relative to the content root). -/
structure LangPlan where
  storagePrefix : String
  urlPrefix : String
  metaFiles : List MetaFile
  pageDests : List String
  indexPath : String
  indexHref : String
deriving DecidableEq

/-- `writeLangContent(langCode, artifacts, isDefault, useLangFolders)`. -/
def writeLangContent (langCode : String) (A : BuildArtifacts)
    (isDefault useLangFolders : Bool) : LangPlan :=
  let storagePrefix := if useLangFolders then langCode else if isDefault then "" else langCode
  let urlPrefix := if isDefault then "" else langCode
  let metaFiles :=
    if storagePrefix ≠ "" then
      A.metaFiles.map (fun m =>
        ⟨if m.dir ≠ "" then storagePrefix ++ "/" ++ m.dir else storagePrefix, m.data⟩)
    else A.metaFiles
  let pageDests := A.pageMap.map (fun m =>
    if storagePrefix ≠ "" then storagePrefix ++ "/" ++ m.dest ++ ".mdx" else m.dest ++ ".mdx")
  let indexPath := if storagePrefix ≠ "" then storagePrefix ++ "/index.mdx" else "index.mdx"
  let indexHref :=
    if urlPrefix ≠ "" then "/" ++ urlPrefix ++ "/" ++ A.firstPage ++ "/"
    else "/" ++ A.firstPage ++ "/"
  ⟨storagePrefix, urlPrefix, metaFiles, pageDests, indexPath, indexHref⟩

/-- The per-language loop of `rebuildFromConfig`'s Mode 1: every entry is
written with `useLangFolders = true`; only the first is `isDefault`. -/
def mode1Lang : List LangEntry → Bool → List LangPlan
  | [], _ => []
  | le :: rest, isFirst =>
    writeLangContent le.language (buildArtifacts le.tabs) isFirst true
      :: mode1Lang rest false

/-- Mode 1 ("per-language navigation") of `rebuildFromConfig`: one plan per
language entry plus the root `meta.json` pages list (written last). -/
structure Mode1Plan where
  perLang : List LangPlan
  rootPages : List String

/-- The whole Mode 1 write plan. -/
def mode1Plan (langs : List LangEntry) : Mode1Plan :=
  { perLang := mode1Lang langs true
    rootPages := langs.map (fun le => "!" ++ le.language) }

/-- A two-language configuration used as the C9 witness. -/
def langsEnJa : List LangEntry := [⟨"en", [tTab]⟩, ⟨"ja", [tTab]⟩]

/- ## Claim C3 apparatus: meta-reference resolution -/

/-- Strip one leading `!` hidden-marker. -/
def stripBang (e : String) : String :=
  match e.data with
  | '!' :: rest => String.mk rest
  | _ => e

/-- `'/' does not occur in the string`. -/
def slashFree (s : String) : Bool := s.data.all (fun c => c ≠ '/')

mutual
/-- Normalizer invariant on canonical groups: the slug is '/'-free (slugs
come from `slugify`/`uniqueSlug`, which never emit '/'), recursively. -/
def groupWF : CGroup → Bool
  | .mk _ slug _ _ _ _ _ pages => slashFree slug && entriesWF pages

/-- `groupWF` over an entry list. -/
def entriesWF : List CEntry → Bool
  | [] => true
  | e :: rest =>
    (match e with
     | CEntry.group g => groupWF g
     | _ => true) && entriesWF rest
end

/-- Tab pages hold no group objects (the normalizer partitions groups out). -/
def noGroupEntries : List CEntry → Bool
  | [] => true
  | e :: rest =>
    (match e with
     | CEntry.group _ => false
     | _ => true) && noGroupEntries rest

/-- Normalizer invariants on a canonical tab: non-empty slug, well-formed
groups, group-free direct pages. -/
def tabWF (t : CTab) : Bool :=
  !(t.slug == "") && (t.groups.getD []).all groupWF && noGroupEntries (t.pages.getD [])

/-- Normalizer invariants over a canonical tab list. -/
def tabsWF (tabs : List CTab) : Bool := tabs.all tabWF

/-- Entry `e` of a meta file at `dir` is accounted for: it is a separator
or link encoding, or (as-is or after stripping a leading `!`) it matches
the basename of some page destination, or the basename or the full path of
some other meta file's directory. -/
def resolves (pm : List PageMapping) (mfs : List MetaFile) (dir e : String) : Prop :=
  (∃ l, e = "---" ++ l ++ "---")
  ∨ (∃ h l ic, e = linkEntry h l ic)
  ∨ (∃ m ∈ pm, e = pageBasename m.dest ∨ stripBang e = pageBasename m.dest)
  ∨ (∃ mf ∈ mfs, mf.dir ≠ dir
      ∧ (e = pageBasename mf.dir ∨ stripBang e = pageBasename mf.dir
          ∨ e = mf.dir ∨ stripBang e = mf.dir))

/-- The claim's original, stricter resolution: basenames only (no full-dir
match).  The counterexample refutes this version. -/
def resolvesBasename (pm : List PageMapping) (mfs : List MetaFile) (dir e : String) : Prop :=
  (∃ l, e = "---" ++ l ++ "---")
  ∨ (∃ h l ic, e = linkEntry h l ic)
  ∨ (∃ m ∈ pm, e = pageBasename m.dest ∨ stripBang e = pageBasename m.dest)
  ∨ (∃ mf ∈ mfs, mf.dir ≠ dir
      ∧ (e = pageBasename mf.dir ∨ stripBang e = pageBasename mf.dir))

/-- A canonical tab whose slug contains '/' — exactly what the normalizer
produces for a tab nested under a product/version/anchor prefix. -/
def acmeTab : CTab :=
  { tab := "Guides", slug := "acme/guides", pages := some [CEntry.page "intro"] }

/-- A nested group used by the C3 witness. -/
def wGroup : CGroup := CGroup.mk "G" "g" none none none none none [CEntry.page "a"]

/-- A well-formed canonical tab used by the C3 witness. -/
def wTab : CTab :=
  { tab := "T"
    slug := "t"
    groups := some [wGroup]
    pages := some [CEntry.page "p"] }

/- # THEOREMS -/

/- ## Decimal rendering lemmas (groundwork for C2) -/

theorem digitVal_digitChar (d : Nat) (hd : d < 10) :
    digitVal (Nat.digitChar d) = d := by
  interval_cases d <;> rfl

theorem toDigitsCore_append (b fuel : Nat) : ∀ (n : Nat) (ds : List Char),
    Nat.toDigitsCore b fuel n ds = Nat.toDigitsCore b fuel n [] ++ ds := by
  induction fuel with
  | zero => intro n ds; simp [Nat.toDigitsCore]
  | succ f ih =>
    intro n ds
    simp only [Nat.toDigitsCore]
    by_cases h : n / b = 0
    · simp [h]
    · simp only [h, if_false]
      rw [ih (n / b) (Nat.digitChar (n % b) :: ds), ih (n / b) [Nat.digitChar (n % b)],
        List.append_assoc]
      rfl

theorem toDigitsCore_fuel (b : Nat) (hb : 2 ≤ b) : ∀ (fuel fuel' n : Nat) (ds : List Char),
    n < fuel → n < fuel' →
    Nat.toDigitsCore b fuel n ds = Nat.toDigitsCore b fuel' n ds := by
  intro fuel
  induction fuel with
  | zero => intro fuel' n ds h; exact absurd h (Nat.not_lt_zero n)
  | succ f ih =>
    intro fuel' n ds h h'
    cases fuel' with
    | zero => exact absurd h' (Nat.not_lt_zero n)
    | succ f' =>
      simp only [Nat.toDigitsCore]
      by_cases hdiv : n / b = 0
      · simp [hdiv]
      · simp only [hdiv, if_false]
        have hb0 : 0 < b := Nat.lt_of_lt_of_le (by decide) hb
        have hn0 : 0 < n := by
          rcases Nat.eq_zero_or_pos n with h0 | h0
          · exact absurd (by simp [h0]) hdiv
          · exact h0
        have hlt : n / b < n := Nat.div_lt_self hn0 (Nat.lt_of_lt_of_le (by decide) hb)
        exact ih f' (n / b) (Nat.digitChar (n % b) :: ds)
          (Nat.lt_of_lt_of_le hlt (Nat.lt_succ_iff.mp h))
          (Nat.lt_of_lt_of_le hlt (Nat.lt_succ_iff.mp h'))

theorem toDigits_eq_of_div_eq_zero (n : Nat) (h : n / 10 = 0) :
    Nat.toDigits 10 n = [Nat.digitChar (n % 10)] := by
  simp [Nat.toDigits, Nat.toDigitsCore, h]

theorem toDigits_eq_of_div_ne_zero (n : Nat) (h : n / 10 ≠ 0) :
    Nat.toDigits 10 n = Nat.toDigits 10 (n / 10) ++ [Nat.digitChar (n % 10)] := by
  have hn0 : 0 < n := by
    rcases Nat.eq_zero_or_pos n with h0 | h0
    · exact absurd (by simp [h0]) h
    · exact h0
  have hlt : n / 10 < n := Nat.div_lt_self hn0 (by decide)
  show Nat.toDigitsCore 10 (n + 1) n [] = _
  simp only [Nat.toDigitsCore, h, if_false]
  rw [toDigitsCore_fuel 10 (by decide) n (n / 10 + 1) (n / 10)
      (Nat.digitChar (n % 10) :: []) hlt (Nat.lt_succ_self _)]
  exact toDigitsCore_append 10 (n / 10 + 1) (n / 10) [Nat.digitChar (n % 10)]

theorem parseDigits_append_singleton (l : List Char) (c : Char) :
    parseDigits (l ++ [c]) = 10 * parseDigits l + digitVal c := by
  simp [parseDigits, List.foldl_append]

theorem parseDigits_toDigits (n : Nat) : parseDigits (Nat.toDigits 10 n) = n := by
  induction n using Nat.strong_induction_on with
  | _ n ih =>
    by_cases h : n / 10 = 0
    · have hn : n < 10 := (Nat.div_eq_zero_iff (by decide)).mp h
      rw [toDigits_eq_of_div_eq_zero n h]
      show 10 * 0 + digitVal (Nat.digitChar (n % 10)) = n
      rw [Nat.mod_eq_of_lt hn] at *
      rw [digitVal_digitChar n hn]
      omega
    · have hn0 : 0 < n := by
        rcases Nat.eq_zero_or_pos n with h0 | h0
        · exact absurd (by simp [h0]) h
        · exact h0
      rw [toDigits_eq_of_div_ne_zero n h, parseDigits_append_singleton,
        ih (n / 10) (Nat.div_lt_self hn0 (by decide)),
        digitVal_digitChar (n % 10) (Nat.mod_lt n (by decide))]
      omega

theorem toDigits_ne_nil (n : Nat) : Nat.toDigits 10 n ≠ [] := by
  by_cases h : n / 10 = 0
  · rw [toDigits_eq_of_div_eq_zero n h]; simp
  · rw [toDigits_eq_of_div_ne_zero n h]; simp

theorem repr_injective {n m : Nat} (h : Nat.repr n = Nat.repr m) : n = m := by
  have hd : Nat.toDigits 10 n = Nat.toDigits 10 m := by
    have := congrArg String.data h
    simpa [Nat.repr, List.asString] using this
  calc n = parseDigits (Nat.toDigits 10 n) := (parseDigits_toDigits n).symm
    _ = parseDigits (Nat.toDigits 10 m) := by rw [hd]
    _ = m := parseDigits_toDigits m

theorem repr_length_pos (n : Nat) : 0 < (Nat.repr n).length := by
  show 0 < (List.asString (Nat.toDigits 10 n)).length
  rw [String.length]
  cases hl : Nat.toDigits 10 n with
  | nil => exact absurd hl (toDigits_ne_nil n)
  | cons c l => simp [List.asString]


/- ## Claim C2 lemmas and theorem -/

theorem slugCand_ne_base (base : String) (k : Nat) : slugCand base k ≠ base := by
  intro h
  have hlen := congrArg String.length h
  rw [slugCand, String.length_append, String.length_append] at hlen
  have := repr_length_pos k
  have hdash : ("-" : String).length = 1 := rfl
  omega

theorem repr_data (n : Nat) : (Nat.repr n).data = Nat.toDigits 10 n := rfl

theorem slugCand_inj {base : String} {i j : Nat} (h : slugCand base i = slugCand base j) :
    i = j := by
  have hdata := congrArg String.data h
  simp only [slugCand, String.data_append] at hdata
  have h2 : (Nat.repr i).data = (Nat.repr j).data :=
    List.append_cancel_left hdata
  rw [repr_data, repr_data] at h2
  calc i = parseDigits (Nat.toDigits 10 i) := (parseDigits_toDigits i).symm
    _ = parseDigits (Nat.toDigits 10 j) := by rw [h2]
    _ = j := parseDigits_toDigits j

theorem slugSeq_zero (base : String) : slugSeq base 0 = [] := rfl

theorem slugSeq_succ (base : String) (n : Nat) :
    slugSeq base (n + 1) = slugSeq base n ++ [slugAt base (n + 1)] := by
  simp [slugSeq, List.range_succ]

theorem slugSeq_length (base : String) (n : Nat) : (slugSeq base n).length = n := by
  simp [slugSeq]

theorem base_mem_slugSeq (base : String) {n : Nat} (hn : 1 ≤ n) :
    base ∈ slugSeq base n := by
  have : slugAt base 1 ∈ slugSeq base n := by
    refine List.mem_map.mpr ⟨0, ?_, rfl⟩
    exact List.mem_range.mpr hn
  simpa [slugAt] using this

theorem slugCand_mem_slugSeq (base : String) {j n : Nat} (h2 : 2 ≤ j) (hn : j ≤ n) :
    slugCand base j ∈ slugSeq base n := by
  have hmem : slugAt base ((j - 1) + 1) ∈ slugSeq base n :=
    List.mem_map.mpr ⟨j - 1, List.mem_range.mpr (by omega), rfl⟩
  have hj : (j - 1) + 1 = j := by omega
  rw [hj] at hmem
  have hAt : slugAt base j = slugCand base j := by
    unfold slugAt; rw [if_neg (by omega)]
  rwa [hAt] at hmem

theorem slugCand_not_mem_slugSeq (base : String) {j n : Nat} (hj : n < j) :
    slugCand base j ∉ slugSeq base n := by
  intro hmem
  rcases List.mem_map.mp hmem with ⟨i, hi, hEq⟩
  have hir : i < n := List.mem_range.mp hi
  by_cases h1 : i + 1 = 1
  · rw [slugAt, if_pos h1] at hEq
    exact slugCand_ne_base base j hEq.symm
  · rw [slugAt, if_neg h1] at hEq
    have := slugCand_inj hEq.symm
    omega

theorem jsHas_iff_mem (used : List String) (s : String) :
    jsHas used s = true ↔ s ∈ used := by
  simp [jsHas, List.contains, List.elem_iff]

theorem probeSlug_slugSeq (base : String) (k : Nat) :
    ∀ fuel j, 2 ≤ j → j ≤ k + 1 → k + 2 - j ≤ fuel →
    probeSlug base (slugSeq base k) j fuel = slugCand base (k + 1) := by
  intro fuel
  induction fuel with
  | zero => intro j h2 hk hf; omega
  | succ f ih =>
    intro j h2 hk hf
    rw [probeSlug]
    by_cases hjk : j = k + 1
    · have : jsHas (slugSeq base k) (slugCand base j) = false := by
        rw [Bool.eq_false_iff]
        intro habs
        exact slugCand_not_mem_slugSeq base (by omega)
          ((jsHas_iff_mem _ _).mp habs)
      rw [this]
      simp [hjk]
    · have hjle : j ≤ k := by omega
      have : jsHas (slugSeq base k) (slugCand base j) = true :=
        (jsHas_iff_mem _ _).mpr (slugCand_mem_slugSeq base h2 hjle)
      rw [this]
      simp only [if_true]
      exact ih (j + 1) (by omega) (by omega) (by omega)

theorem uniqueSlug_slugSeq (base : String) (n : Nat) :
    uniqueSlug base (slugSeq base n) = (slugAt base (n + 1), slugSeq base (n + 1)) := by
  cases n with
  | zero =>
    rw [uniqueSlug]
    have h0 : jsHas (slugSeq base 0) base = false := rfl
    rw [h0]
    simp [jsAdd, slugSeq_succ, slugSeq_zero, slugAt]
  | succ m =>
    rw [uniqueSlug]
    have hb : jsHas (slugSeq base (m + 1)) base = true :=
      (jsHas_iff_mem _ _).mpr (base_mem_slugSeq base (by omega))
    rw [hb]
    simp only [Bool.not_true, Bool.false_eq_true, if_false]
    have hp : probeSlug base (slugSeq base (m + 1)) 2 ((slugSeq base (m + 1)).length + 1)
        = slugCand base (m + 1 + 1) := by
      rw [slugSeq_length]
      exact probeSlug_slugSeq base (m + 1) (m + 1 + 1) 2 (by omega) (by omega) (by omega)
    have hAt : slugAt base (m + 1 + 1) = slugCand base (m + 1 + 1) := by
      unfold slugAt; rw [if_neg (by omega)]
    rw [hp, ← hAt, jsAdd, slugSeq_succ base (m + 1)]

theorem iterUniqueSlug_eq (base : String) (n : Nat) :
    iterUniqueSlug base n = (slugSeq base n, slugSeq base n) := by
  induction n with
  | zero => rfl
  | succ m ih =>
    rw [iterUniqueSlug, ih]
    simp only [uniqueSlug_slugSeq base m]
    rw [← slugSeq_succ]

theorem slugAt_succ_not_mem (base : String) (n : Nat) :
    slugAt base (n + 1) ∉ slugSeq base n := by
  cases n with
  | zero => simp [slugSeq_zero]
  | succ m =>
    have h : slugAt base (m + 1 + 1) = slugCand base (m + 1 + 1) := by
      unfold slugAt; rw [if_neg (by omega)]
    rw [h]
    exact slugCand_not_mem_slugSeq base (by omega)

theorem slugSeq_nodup (base : String) (n : Nat) : (slugSeq base n).Nodup := by
  induction n with
  | zero => simp [slugSeq_zero]
  | succ m ih =>
    rw [slugSeq_succ]
    refine List.Nodup.append ih (List.nodup_singleton _) ?_
    intro s hs hs'
    rcases List.mem_singleton.mp hs' with rfl
    exact slugAt_succ_not_mem base m hs

/-- C2: calling `uniqueSlug` N times with the same base against one
threaded used-set that starts empty returns `base, base-2, ..., base-N`;
the returned values are pairwise distinct, each is absent from the set
before its call, and each call adds exactly its result to the set. -/
theorem c2_uniqueSlug_sequence (base : String) (N : Nat) :
    (iterUniqueSlug base N).1 = slugSeq base N
    ∧ (iterUniqueSlug base N).1.Nodup
    ∧ ∀ k, k < N →
        (uniqueSlug base (iterUniqueSlug base k).2).1 = slugAt base (k + 1)
        ∧ jsHas (iterUniqueSlug base k).2 (slugAt base (k + 1)) = false
        ∧ (uniqueSlug base (iterUniqueSlug base k).2).2
            = jsAdd (iterUniqueSlug base k).2 (slugAt base (k + 1)) := by
  refine ⟨by rw [iterUniqueSlug_eq], ?_, ?_⟩
  · rw [iterUniqueSlug_eq]; exact slugSeq_nodup base N
  · intro k _
    rw [iterUniqueSlug_eq]
    refine ⟨by rw [uniqueSlug_slugSeq], ?_, ?_⟩
    · rw [Bool.eq_false_iff]
      intro habs
      exact slugAt_succ_not_mem base k ((jsHas_iff_mem _ _).mp habs)
    · rw [uniqueSlug_slugSeq, slugSeq_succ]
      rfl

/-- Closed witness for C2: three calls with base "guides" return
"guides", "guides-2", "guides-3", applying `c2_uniqueSlug_sequence`
with its inner hypothesis discharged at k = 1. -/
theorem c2_uniqueSlug_sequence_witness :
    (iterUniqueSlug "guides" 3).1 = slugSeq "guides" 3
    ∧ (uniqueSlug "guides" (iterUniqueSlug "guides" 1).2).1 = slugAt "guides" 2 :=
  ⟨(c2_uniqueSlug_sequence "guides" 3).1,
    ((c2_uniqueSlug_sequence "guides" 3).2.2 1 (by decide)).1⟩


/- ## Claim C4: firstPage is the head of pageMap -/

theorem foldl_trackFirstPage_flag_true (l : List PageMapping) (s : String) :
    l.foldl (fun st m => trackFirstPage st m.dest) (s, true) = (s, true) := by
  induction l with
  | nil => rfl
  | cons x xs ih =>
    rw [List.foldl_cons]
    have h1 : trackFirstPage (s, true) x.dest = (s, true) := rfl
    rw [h1, ih]

theorem foldl_trackFirstPage_eq (l : List PageMapping) :
    (l.foldl (fun st m => trackFirstPage st m.dest) ("quickstart", false)).1
      = (l.head?.map PageMapping.dest).getD "quickstart" := by
  cases l with
  | nil => rfl
  | cons m rest =>
    rw [List.foldl_cons]
    have h1 : trackFirstPage ("quickstart", false) m.dest = (m.dest, true) := rfl
    rw [h1, foldl_trackFirstPage_flag_true]
    rfl

/-- C4: `buildArtifacts` returns `firstPage` equal to the dest of the first
PageMapping of its pre-order traversal, which is the dest of the first
element of the returned pageMap; when no page reference is encountered it
is the fixed fallback "quickstart". -/
theorem c4_firstPage (tabs : List CTab) :
    (buildArtifacts tabs).firstPage
      = ((buildArtifacts tabs).pageMap.head?.map PageMapping.dest).getD "quickstart" :=
  foldl_trackFirstPage_eq ((walkTabs (tabs.filter (fun t => !truthyStr t.href))).1)

/- ## Claim C5: link-tabs and the root meta file -/

/-- C5 counterexample: for a single link-tab (href set), buildArtifacts
emits no meta files at all, so — contrary to the claim — the link-tab's
slug "x" appears in no root MetaFile pages list. -/
theorem c5_counterexample :
    (buildArtifacts [linkTabX]).metaFiles = []
    ∧ ¬ ∃ mf ∈ (buildArtifacts [linkTabX]).metaFiles, "x" ∈ mf.data.pages := by
  refine ⟨rfl, ?_⟩
  rintro ⟨mf, hmf, -⟩
  rw [show (buildArtifacts [linkTabX]).metaFiles = [] from rfl] at hmf
  exact absurd hmf (List.not_mem_nil mf)

/-- C5 (amended): link-tabs contribute nothing to `buildArtifacts` — no
PageMapping, no MetaFile and no root-meta entry (the whole output equals
that of the link-free sublist); the root MetaFile (dir "") is emitted, as
the last meta file, exactly when at least one non-link tab exists, and its
pages list is the ordered list of the non-link tabs' slugs. -/
theorem c5_link_tabs_amended (tabs : List CTab) :
    buildArtifacts tabs = buildArtifacts (tabs.filter (fun t => !truthyStr t.href))
    ∧ (0 < (tabs.filter (fun t => !truthyStr t.href)).length →
        (buildArtifacts tabs).metaFiles.getLast?
          = some ⟨"", rootMetaData
              ((tabs.filter (fun t => !truthyStr t.href)).map CTab.slug)⟩)
    ∧ ((tabs.filter (fun t => !truthyStr t.href)).length = 0 →
        (buildArtifacts tabs).metaFiles = []) := by
  have hf : (tabs.filter (fun t => !truthyStr t.href)).filter
        (fun t => !truthyStr t.href)
      = tabs.filter (fun t => !truthyStr t.href) := by
    simp [List.filter_filter]
  refine ⟨?_, ?_, ?_⟩
  · simp only [buildArtifacts, hf]
  · intro hpos
    have hlen : 0 < ((tabs.filter (fun t => !truthyStr t.href)).map CTab.slug).length := by
      simpa using hpos
    simp only [buildArtifacts, if_pos hlen]
    simp
  · intro hzero
    have hnil : tabs.filter (fun t => !truthyStr t.href) = [] :=
      List.eq_nil_of_length_eq_zero hzero
    simp [buildArtifacts, hnil, walkTabs]

/-- Closed witness for the amended C5 at a concrete two-tab list (one
link-tab, one content tab), discharging the emission hypothesis. -/
theorem c5_link_tabs_amended_witness :
    buildArtifacts [linkTabX, tTab]
        = buildArtifacts ([linkTabX, tTab].filter (fun t => !truthyStr t.href))
    ∧ (buildArtifacts [linkTabX, tTab]).metaFiles.getLast?
        = some ⟨"", rootMetaData
            (([linkTabX, tTab].filter (fun t => !truthyStr t.href)).map CTab.slug)⟩ :=
  ⟨(c5_link_tabs_amended [linkTabX, tTab]).1,
    (c5_link_tabs_amended [linkTabX, tTab]).2.1 (by decide)⟩

/- ## Claim C1: destination paths are slug chains -/

theorem joinSlash_append_singleton (l : List String) (hl : l ≠ []) (s : String) :
    joinSlash (l ++ [s]) = joinSlash l ++ "/" ++ s := by
  cases l with
  | nil => exact absurd rfl hl
  | cons a rest => simp [joinSlash, List.foldl_append]

mutual
theorem addGroup_pageMap (g : CGroup) (chain : List String) (hc : chain ≠ []) :
    (addGroup g (joinSlash chain)).1 = (specGroupRefs g chain).map specMapping := by
  match g with
  | .mk label slug icon tag description expanded hidden pages =>
    simp only [addGroup, specGroupRefs]
    rw [← joinSlash_append_singleton chain hc slug]
    exact walkGroupItems_pageMap pages (chain ++ [slug]) (by simp)

theorem walkGroupItems_pageMap (items : List CEntry) (chain : List String) (hc : chain ≠ []) :
    (walkGroupItems items (joinSlash chain)).1
      = (specItemRefs items chain).map specMapping := by
  match items with
  | [] => simp [walkGroupItems, specItemRefs]
  | CEntry.page s :: rest =>
    simp only [walkGroupItems, specItemRefs]
    rw [walkGroupItems_pageMap rest chain hc]
    simp [specMapping, joinSlash_append_singleton chain hc]
  | CEntry.group g :: rest =>
    simp only [walkGroupItems, specItemRefs]
    rw [addGroup_pageMap g chain hc, walkGroupItems_pageMap rest chain hc]
    simp
  | CEntry.sep l :: rest =>
    simpa [walkGroupItems, specItemRefs] using walkGroupItems_pageMap rest chain hc
  | CEntry.link h l i :: rest =>
    simpa [walkGroupItems, specItemRefs] using walkGroupItems_pageMap rest chain hc
end

theorem walkTabGroups_pageMap (gs : List CGroup) (slug : String) :
    (walkTabGroups gs slug).1
      = ((gs.map (fun g => specGroupRefs g [slug])).flatten).map specMapping := by
  induction gs with
  | nil => simp [walkTabGroups]
  | cons g rest ih =>
    simp only [walkTabGroups, List.map_cons, List.flatten_cons, List.map_append]
    rw [← ih]
    have := addGroup_pageMap g [slug] (by simp)
    simp only [joinSlash, List.foldl_nil] at this
    simp [this]

theorem walkTabPages_pageMap (items : List CEntry) (slug : String) :
    (walkTabPages items slug).1
      = ((items.map (fun e => match e with
          | CEntry.page s => [([slug], s)]
          | _ => [])).flatten).map specMapping := by
  induction items with
  | nil => simp [walkTabPages]
  | cons item rest ih =>
    cases item with
    | page s =>
      simp only [walkTabPages, List.map_cons, List.flatten_cons, List.map_append]
      rw [← ih]
      simp [specMapping, joinSlash]
    | sep l => simpa [walkTabPages] using ih
    | link h l i => simpa [walkTabPages] using ih
    | group g => simpa [walkTabPages] using ih

theorem buildTab_pageMap (t : CTab) :
    (buildTab t).1 = (specTabRefs t).map specMapping := by
  simp only [buildTab, specTabRefs, List.map_append]
  rw [walkTabGroups_pageMap, walkTabPages_pageMap]

theorem walkTabs_pageMap (ts : List CTab) :
    (walkTabs ts).1 = ((ts.map specTabRefs).flatten).map specMapping := by
  induction ts with
  | nil => simp [walkTabs]
  | cons t rest ih =>
    simp only [walkTabs, List.map_cons, List.flatten_cons, List.map_append]
    rw [← ih, buildTab_pageMap]

theorem buildArtifacts_pageMap_spec (tabs : List CTab) :
    (buildArtifacts tabs).pageMap = (specRefs tabs).map specMapping :=
  walkTabs_pageMap (tabs.filter (fun t => !truthyStr t.href))


/- ## Claims C8 and C10: href handling in normalizeTab -/

theorem fields_clearHref_href (r : Raw) : r.clearHref.fields.href = none := by
  cases r <;> rfl

theorem fields_clearHref_tab (r : Raw) : r.clearHref.fields.tab = r.fields.tab := by
  cases r <;> rfl

theorem fields_clearHref_slug (r : Raw) : r.clearHref.fields.slug = r.fields.slug := by
  cases r <;> rfl

theorem fields_clearHref_icon (r : Raw) : r.clearHref.fields.icon = r.fields.icon := by
  cases r <;> rfl

theorem fields_clearHref_menu (r : Raw) : r.clearHref.fields.menu = r.fields.menu := by
  cases r <;> rfl

theorem fields_clearHref_groups (r : Raw) : r.clearHref.fields.groups = r.fields.groups := by
  cases r <;> rfl

theorem fields_clearHref_pages (r : Raw) : r.clearHref.fields.pages = r.fields.pages := by
  cases r <;> rfl

theorem fields_clearHref_tabs (r : Raw) : r.clearHref.fields.tabs = r.fields.tabs := by
  cases r <;> rfl

theorem fields_clearHref_dropdowns (r : Raw) :
    r.clearHref.fields.dropdowns = r.fields.dropdowns := by
  cases r <;> rfl

theorem fields_clearHref_anchors (r : Raw) :
    r.clearHref.fields.anchors = r.fields.anchors := by
  cases r <;> rfl

/-- `collectEntries` reads only the six content fields. -/
theorem collectEntries_fields_congr (fuel : Nat) (r₁ r₂ : Raw) (u : List String)
    (hm : r₁.fields.menu = r₂.fields.menu) (hg : r₁.fields.groups = r₂.fields.groups)
    (hp : r₁.fields.pages = r₂.fields.pages) (ha : r₁.fields.anchors = r₂.fields.anchors)
    (hd : r₁.fields.dropdowns = r₂.fields.dropdowns)
    (ht : r₁.fields.tabs = r₂.fields.tabs) :
    collectEntries fuel r₁ u = collectEntries fuel r₂ u := by
  cases fuel with
  | zero => rfl
  | succ f => simp only [collectEntries, hm, hg, hp, ha, hd, ht]

/-- `hasContent` reads only the six content fields. -/
theorem hasContent_fields_congr (r₁ r₂ : Raw)
    (hm : r₁.fields.menu = r₂.fields.menu) (hg : r₁.fields.groups = r₂.fields.groups)
    (hp : r₁.fields.pages = r₂.fields.pages) (ha : r₁.fields.anchors = r₂.fields.anchors)
    (hd : r₁.fields.dropdowns = r₂.fields.dropdowns)
    (ht : r₁.fields.tabs = r₂.fields.tabs) :
    hasContent r₁ = hasContent r₂ := by
  simp only [hasContent, hm, hg, hp, ha, hd, ht]

/-- C8: a canonical tab produced by `normalizeTab` that carries `href` has
neither a `groups` nor a `pages` field (terminal link form). -/
theorem c8_link_tab_terminal (fuel : Nat) (r : Raw) (used : List String) (pfx : String)
    (h : ((normalizeTab fuel r used pfx).1.href).isSome = true) :
    (normalizeTab fuel r used pfx).1.groups = none
    ∧ (normalizeTab fuel r used pfx).1.pages = none := by
  by_cases hcond : (truthyStr r.fields.href && !hasContent r) = true
  · constructor
    · show (normalizeTab fuel r used pfx).1.groups = none
      unfold normalizeTab normalizeTabCore
      rw [if_pos hcond]
    · show (normalizeTab fuel r used pfx).1.pages = none
      unfold normalizeTab normalizeTabCore
      rw [if_pos hcond]
  · exfalso
    have hnone : (normalizeTab fuel r used pfx).1.href = none := by
      unfold normalizeTab normalizeTabCore
      rw [if_neg hcond]
    rw [hnone] at h
    simp at h

/-- Closed witness for C8: a raw tab with only an href normalizes to the
terminal link form. -/
theorem c8_link_tab_terminal_witness :
    ((normalizeTab 5 linkRawTab [] "").1.href).isSome = true
    ∧ (normalizeTab 5 linkRawTab [] "").1.groups = none
    ∧ (normalizeTab 5 linkRawTab [] "").1.pages = none :=
  ⟨by decide,
    (c8_link_tab_terminal 5 linkRawTab [] "" (by decide)).1,
    (c8_link_tab_terminal 5 linkRawTab [] "" (by decide)).2⟩

/-- C10: the output of `normalizeTab` carries `href = some h` exactly when
the raw node's href is the non-empty string `h` and the node has no content
(`hasContent`); and when the node has content, the output is the same as
for the node with its href removed — content wins over href. -/
theorem c10_href_exactly (fuel : Nat) (r : Raw) (used : List String) (pfx : String) :
    (∀ h : String, (normalizeTab fuel r used pfx).1.href = some h
        ↔ r.fields.href = some h ∧ h ≠ "" ∧ hasContent r = false)
    ∧ (hasContent r = true →
        normalizeTab fuel r used pfx = normalizeTab fuel r.clearHref used pfx) := by
  constructor
  · intro h
    by_cases hcond : (truthyStr r.fields.href && !hasContent r) = true
    · have hout : (normalizeTab fuel r used pfx).1.href = r.fields.href := by
        unfold normalizeTab normalizeTabCore
        rw [if_pos hcond]
      rw [Bool.and_eq_true] at hcond
      obtain ⟨ht, hnc⟩ := hcond
      rw [hout]
      constructor
      · intro heq
        refine ⟨heq, ?_, ?_⟩
        · rw [heq] at ht
          simp [truthyStr] at ht
          exact ht
        · simpa using hnc
      · exact fun hp => hp.1
    · have hout : (normalizeTab fuel r used pfx).1.href = none := by
        unfold normalizeTab normalizeTabCore
        rw [if_neg hcond]
      rw [hout]
      constructor
      · intro habs; exact absurd habs (by simp)
      · rintro ⟨he, hne, hnc⟩
        exact ((hcond (by rw [he]; simp [truthyStr, hne, hnc]))).elim
  · intro hc
    have h1 : ¬((truthyStr r.fields.href && !hasContent r) = true) := by
      simp [hc]
    have h2 : ¬((truthyStr r.clearHref.fields.href && !hasContent r.clearHref) = true) := by
      rw [fields_clearHref_href]
      simp [truthyStr]
    have hcoll : collectEntries fuel r.clearHref [] = collectEntries fuel r [] :=
      collectEntries_fields_congr fuel _ _ []
        (fields_clearHref_menu r) (fields_clearHref_groups r) (fields_clearHref_pages r)
        (fields_clearHref_anchors r) (fields_clearHref_dropdowns r) (fields_clearHref_tabs r)
    unfold normalizeTab normalizeTabCore
    rw [if_neg h1, if_neg h2, fields_clearHref_tab, fields_clearHref_slug,
      fields_clearHref_icon, hcoll]

/-- Closed witness for C10: with both an href and content, the href is
dropped and the result equals that of the href-free node; the theorem is
applied at a concrete raw tab, discharging its hypothesis. -/
theorem c10_href_exactly_witness :
    normalizeTab 5 hrefContentTab [] ""
        = normalizeTab 5 hrefContentTab.clearHref [] ""
    ∧ (normalizeTab 5 hrefContentTab [] "").1.href = none :=
  ⟨(c10_href_exactly 5 hrefContentTab [] "").2 (by decide), by decide⟩

/- ## Claim C6: menu / dropdown / group shape folding -/

/-- C6 counterexample: with the label "!!!" (which slugifies to the empty
string) and identical (empty) content, the three shapes take different
slugify fallbacks, so the outputs are not structurally identical. -/
theorem c6_counterexample :
    (normalizeGroup 5 gBad []).1.slug = "group"
    ∧ (normalizeMenuItem 5 mBad []).1.slug = "menu"
    ∧ (normalizeDropdownAsGroup 5 dBad []).1.slug = "tab"
    ∧ ¬((normalizeGroup 5 gBad []).1.slug = (normalizeMenuItem 5 mBad []).1.slug) := by
  refine ⟨by decide, by decide, by decide, by decide⟩

/-- C6 (amended): for every label whose slugified form is non-empty and
every content payload (pages list, icon), a menu item, a dropdown and a
group with that label and content produce structurally identical
CanonicalGroup output — same label, same slug (same slugify-then-uniqueSlug
rule against the same scope), same normalized pages — and the same
used-set effect. -/
theorem c6_shape_folding_amended (fuel : Nat) (label : String)
    (pagesF : Option (List Raw)) (iconF : Option String) (used : List String)
    (hslug : slugCore label ≠ "") :
    normalizeGroup fuel (Raw.node { group := some label, pages := pagesF, icon := iconF }) used
      = normalizeMenuItem fuel
          (Raw.node { item := some label, pages := pagesF, icon := iconF }) used
    ∧ normalizeGroup fuel
          (Raw.node { group := some label, pages := pagesF, icon := iconF }) used
      = normalizeDropdownAsGroup fuel
          (Raw.node { dropdown := some label, pages := pagesF, icon := iconF }) used := by
  cases fuel with
  | zero => exact ⟨rfl, rfl⟩
  | succ f =>
    have hs : ∀ fb, slugify label fb = slugCore label := by
      intro fb; simp [slugify, hslug]
    constructor
    · have hcoll : collectEntries f
          (Raw.node { group := some label, pages := pagesF, icon := iconF }) []
          = collectEntries f
            (Raw.node { item := some label, pages := pagesF, icon := iconF }) [] :=
        collectEntries_fields_congr f _ _ [] rfl rfl rfl rfl rfl rfl
      simp only [normalizeGroup, normalizeMenuItem, Raw.fields, Option.getD_some,
        Option.getD_none, hs, hcoll]
    · have hcoll : collectEntries f
          (Raw.node { group := some label, pages := pagesF, icon := iconF }) []
          = collectEntries f
            (Raw.node { dropdown := some label, pages := pagesF, icon := iconF }) [] :=
        collectEntries_fields_congr f _ _ [] rfl rfl rfl rfl rfl rfl
      simp only [normalizeGroup, normalizeDropdownAsGroup, normalizeTabAsGroupCore,
        Raw.fields, Option.getD_some, Option.getD_none, hs, hcoll, truthyStr]
      simp

/-- Closed witness for C6 (amended) at the label "Docs" with one page of
content, discharging the non-empty-slug hypothesis. -/
theorem c6_shape_folding_amended_witness :
    normalizeGroup 5 docsGroupNode [] = normalizeMenuItem 5 docsMenuNode [] :=
  (c6_shape_folding_amended 5 "Docs" (some [Raw.str "a"]) (some "book") []
    (by decide)).1


/- ## Claim C7: the synthesized "Documentation" fallback tab -/

theorem uniqueSlug_snd_length (b : String) (used : List String) :
    ((uniqueSlug b used).2).length = used.length + 1 := by
  unfold uniqueSlug
  by_cases h : jsHas used b
  · simp [h, jsAdd]
  · simp [h, jsAdd]

theorem normalizeTabCore_snd_length (fuel : Nat) (a b c d : Option String)
    (content : Raw) (used : List String) (pfx : String) :
    ((normalizeTabCore fuel a b c d content used pfx).2).length = used.length + 1 := by
  unfold normalizeTabCore
  by_cases h : (truthyStr d && !hasContent content) = true
  · rw [if_pos h]
    exact uniqueSlug_snd_length _ _
  · rw [if_neg h]
    exact uniqueSlug_snd_length _ _

theorem normalizeTabList_snd_length (fuel : Nat) :
    ∀ (l : List Raw) (used : List String) (pfx : String),
    ((normalizeTabList fuel l used pfx).2).length
      = used.length + ((normalizeTabList fuel l used pfx).1).length := by
  intro l
  induction l with
  | nil => intro used pfx; simp [normalizeTabList]
  | cons x rest ih =>
    intro used pfx
    by_cases h : isTabLikeRaw x = true
    · simp only [normalizeTabList, h, if_true]
      rw [ih, normalizeTab, normalizeTabCore_snd_length]
      simp
      omega
    · simp only [normalizeTabList, h, Bool.false_eq_true, if_false]
      exact ih used pfx

theorem normalizeDropdownList_snd_length (fuel : Nat) :
    ∀ (l : List Raw) (used : List String) (pfx : String),
    ((normalizeDropdownList fuel l used pfx).2).length
      = used.length + ((normalizeDropdownList fuel l used pfx).1).length := by
  intro l
  induction l with
  | nil => intro used pfx; simp [normalizeDropdownList]
  | cons x rest ih =>
    intro used pfx
    by_cases h : isDropdownLikeRaw x = true
    · simp only [normalizeDropdownList, h, if_true]
      rw [ih, normalizeDropdownToTab, normalizeTabCore_snd_length]
      simp
      omega
    · simp only [normalizeDropdownList, h, Bool.false_eq_true, if_false]
      exact ih used pfx

theorem normalizeProducts_snd_length (fuel : Nat) :
    ∀ (l : List Raw) (used : List String) (idx : Nat),
    ((normalizeProducts fuel l used idx).2).length
      = used.length + ((normalizeProducts fuel l used idx).1).length := by
  intro l
  induction l with
  | nil => intro used idx; simp [normalizeProducts]
  | cons p rest ih =>
    intro used idx
    by_cases hobj : isObjectRaw p = true
    · simp only [normalizeProducts, hobj, Bool.not_true, Bool.false_eq_true, if_false]
      rw [ih]
      by_cases harr : (p.fields.tabs.isNone && p.fields.dropdowns.isNone) = true
      · simp only [harr, if_true]
        by_cases hc : hasContent p = true
        · simp only [hc, if_true]
          simp [normalizeTabCore_snd_length, normalizeDropdownList_snd_length,
            normalizeTabList_snd_length]
          omega
        · simp only [hc, Bool.false_eq_true, if_false]
          by_cases hh : truthyStr p.fields.href = true
          · simp only [hh, if_true]
            simp [normalizeTabCore_snd_length, normalizeDropdownList_snd_length,
              normalizeTabList_snd_length]
            omega
          · simp only [hh, Bool.false_eq_true, if_false]
            simp [normalizeDropdownList_snd_length, normalizeTabList_snd_length]
            omega
      · simp only [harr, Bool.false_eq_true, if_false]
        simp [normalizeDropdownList_snd_length, normalizeTabList_snd_length]
        omega
    · simp only [normalizeProducts, hobj, Bool.not_eq_true', Bool.not_false, if_true]
      exact ih used (idx + 1)

theorem normalizeVersions_snd_length (fuel : Nat) :
    ∀ (l : List Raw) (used : List String) (idx : Nat),
    ((normalizeVersions fuel l used idx).2).length
      = used.length + ((normalizeVersions fuel l used idx).1).length := by
  intro l
  induction l with
  | nil => intro used idx; simp [normalizeVersions]
  | cons p rest ih =>
    intro used idx
    by_cases hobj : isObjectRaw p = true
    · simp only [normalizeVersions, hobj, Bool.not_true, Bool.false_eq_true, if_false]
      rw [ih]
      by_cases harr : (p.fields.tabs.isNone && p.fields.dropdowns.isNone) = true
      · simp only [harr, if_true]
        by_cases hc : hasContent p = true
        · simp only [hc, if_true]
          simp [normalizeTabCore_snd_length, normalizeDropdownList_snd_length,
            normalizeTabList_snd_length]
          omega
        · simp only [hc, Bool.false_eq_true, if_false]
          by_cases hh : truthyStr p.fields.href = true
          · simp only [hh, if_true]
            simp [normalizeTabCore_snd_length, normalizeDropdownList_snd_length,
              normalizeTabList_snd_length]
            omega
          · simp only [hh, Bool.false_eq_true, if_false]
            simp [normalizeDropdownList_snd_length, normalizeTabList_snd_length]
            omega
      · simp only [harr, Bool.false_eq_true, if_false]
        simp [normalizeDropdownList_snd_length, normalizeTabList_snd_length]
        omega
    · simp only [normalizeVersions, hobj, Bool.not_eq_true', Bool.not_false, if_true]
      exact ih used (idx + 1)

theorem normalizeAnchorsTop_snd_length (fuel : Nat) :
    ∀ (l : List Raw) (used : List String) (idx : Nat),
    ((normalizeAnchorsTop fuel l used idx).2).length
      = used.length + ((normalizeAnchorsTop fuel l used idx).1).length := by
  intro l
  induction l with
  | nil => intro used idx; simp [normalizeAnchorsTop]
  | cons a rest ih =>
    intro used idx
    by_cases hobj : isAnchorLikeRaw a = true
    · simp only [normalizeAnchorsTop, hobj, Bool.not_true, Bool.false_eq_true, if_false]
      rw [ih]
      cases htabs : a.fields.tabs with
      | some lt =>
        simp [normalizeTabList_snd_length]
        omega
      | none =>
        by_cases hc : hasContent a = true
        · simp only [hc, if_true]
          simp [normalizeTabCore_snd_length]
          omega
        · simp only [hc, Bool.false_eq_true, if_false]
          simp
    · simp only [normalizeAnchorsTop, hobj, Bool.not_eq_true', Bool.not_false, if_true]
      exact ih used (idx + 1)

theorem assembleTabs_snd_length (fuel : Nat) (nav : Raw) (used0 : List String) :
    ((assembleTabs fuel nav used0).2).length
      = used0.length + ((assembleTabs fuel nav used0).1).length := by
  simp only [assembleTabs]
  rw [normalizeAnchorsTop_snd_length, normalizeVersions_snd_length,
    normalizeProducts_snd_length, normalizeDropdownList_snd_length,
    normalizeTabList_snd_length]
  simp [List.length_append]
  omega

/-- C7: the concrete `{navigation: {pages: ["a","b"]}}` example produces
exactly the tab `{tab: "Documentation", slug: "documentation",
pages: ["a","b"]}`; and in general, whenever the assembled tab list is
empty but the navigation has top-level groups, pages or menu, the result is
exactly one synthesized "Documentation" tab (slug "documentation") wrapping
that content. -/
theorem c7_documentation_fallback :
    ((normalizeNavigationTabs 20 abConfig []).1 = [docTabAB])
    ∧ ∀ (fuel : Nat) (f : RawFields Raw),
        (assembleTabs fuel (Raw.node f) []).1 = [] →
        (hasNonEmptyList f.groups || hasNonEmptyList f.pages
            || hasNonEmptyList f.menu) = true →
        (normalizeNavigationTabs fuel (Raw.node f) []).1
            = [(normalizeTabCore fuel (some "Documentation") (some "documentation")
                none none (Raw.node f) [] "").1]
          ∧ (normalizeTabCore fuel (some "Documentation") (some "documentation")
              none none (Raw.node f) [] "").1.tab = "Documentation"
          ∧ (normalizeTabCore fuel (some "Documentation") (some "documentation")
              none none (Raw.node f) [] "").1.slug = "documentation" := by
  refine ⟨rfl, ?_⟩
  intro fuel f hempty hroot
  have hnil : (assembleTabs fuel (Raw.node f) []).2 = [] := by
    have hl := assembleTabs_snd_length fuel (Raw.node f) []
    rw [hempty] at hl
    simp at hl
    exact hl
  refine ⟨?_, ?_, ?_⟩
  · show (normalizeNavigationTabs fuel (Raw.node f) []).1 = _
    unfold normalizeNavigationTabs
    rw [show (!isObjectRaw (Raw.node f)) = false from rfl]
    simp only [Bool.false_eq_true, if_false, hempty, hnil]
    have hfields : (Raw.node f).fields = f := rfl
    simp only [hfields, List.isEmpty_nil, Bool.true_and, hroot, if_true, List.nil_append]
  · rfl
  · rfl


/-- Closed witness for C7's general part, applied at the `{pages: ["a","b"]}`
navigation with both hypotheses discharged. -/
theorem c7_documentation_fallback_witness :
    (normalizeNavigationTabs 20 (Raw.node abFields) []).1
      = [(normalizeTabCore 20 (some "Documentation") (some "documentation")
          none none (Raw.node abFields) [] "").1] :=
  (c7_documentation_fallback.2 20 abFields rfl rfl).1

/-- C1: for every canonical tab list, every PageMapping's `dest` is the
enclosing tab's slug, then the slugs of the chain of enclosing groups in
nesting order, then the last path segment of `src`, joined with '/'
(`specRefs`/`specMapping` spell out exactly that walk); and the spec's
two-same-named-groups example yields `guides/guides/intro` and
`guides/guides-2/intro`. -/
theorem c1_dest_slug_chains :
    (∀ tabs : List CTab,
        (buildArtifacts tabs).pageMap = (specRefs tabs).map specMapping)
    ∧ (buildArtifacts (normalizeNavigationTabs 20 guidesConfig []).1).pageMap
        = [⟨"intro", "guides/guides/intro"⟩, ⟨"intro", "guides/guides-2/intro"⟩] :=
  ⟨buildArtifacts_pageMap_spec, by decide⟩

/- ## Claim C9: per-language partitioning -/

theorem mode1Lang_mem (langs : List LangEntry) (b : Bool) (plan : LangPlan)
    (h : plan ∈ mode1Lang langs b) :
    ∃ le ∈ langs, ∃ bf : Bool,
      plan = writeLangContent le.language (buildArtifacts le.tabs) bf true := by
  induction langs generalizing b with
  | nil => simp [mode1Lang] at h
  | cons le rest ih =>
    simp only [mode1Lang, List.mem_cons] at h
    rcases h with h | h
    · exact ⟨le, List.mem_cons_self _ _, b, h⟩
    · rcases ih false h with ⟨le2, hm, bf, hp⟩
      exact ⟨le2, List.mem_cons_of_mem _ hm, bf, hp⟩

theorem writeLangContent_folders (lang : String) (A : BuildArtifacts) (bf : Bool) :
    (writeLangContent lang A bf true).storagePrefix = lang
    ∧ (lang ≠ "" →
        (writeLangContent lang A bf true).metaFiles
            = A.metaFiles.map (fun m =>
                MetaFile.mk (if m.dir ≠ "" then lang ++ "/" ++ m.dir else lang) m.data)
          ∧ (writeLangContent lang A bf true).pageDests
            = A.pageMap.map (fun m => lang ++ "/" ++ m.dest ++ ".mdx")) := by
  refine ⟨rfl, ?_⟩
  intro hne
  constructor
  · simp [writeLangContent, hne]
  · simp [writeLangContent, hne]

/-- C9: in per-language-navigation mode every language entry, the first
included, is written with storage prefix equal to its language code: meta
file dirs are prefixed with the code (empty dir becomes just the code),
page destinations are placed under the code's folder, and the root
meta.json pages list is exactly the '!'-prefixed language codes in
configuration order. -/
theorem c9_per_language_prefixing (langs : List LangEntry) (_hne : 0 < langs.length) :
    (mode1Plan langs).rootPages = langs.map (fun le => "!" ++ le.language)
    ∧ ∀ plan ∈ (mode1Plan langs).perLang, ∃ le ∈ langs,
        plan.storagePrefix = le.language
        ∧ (le.language ≠ "" →
            plan.metaFiles
                = (buildArtifacts le.tabs).metaFiles.map (fun m =>
                    MetaFile.mk (if m.dir ≠ "" then le.language ++ "/" ++ m.dir
                      else le.language) m.data)
              ∧ plan.pageDests
                = (buildArtifacts le.tabs).pageMap.map (fun m =>
                    le.language ++ "/" ++ m.dest ++ ".mdx")) := by
  refine ⟨rfl, ?_⟩
  intro plan hplan
  rcases mode1Lang_mem langs true plan hplan with ⟨le, hm, bf, hp⟩
  refine ⟨le, hm, ?_, ?_⟩
  · rw [hp]
    exact (writeLangContent_folders le.language (buildArtifacts le.tabs) bf).1
  · intro hlang
    rw [hp]
    exact (writeLangContent_folders le.language (buildArtifacts le.tabs) bf).2 hlang

/-- Closed witness for C9 at a two-language configuration, discharging the
mode hypothesis. -/
theorem c9_per_language_prefixing_witness :
    (mode1Plan langsEnJa).rootPages = ["!en", "!ja"] := by
  have h := (c9_per_language_prefixing langsEnJa (by decide)).1
  rw [h]
  rfl


/- ## Claim C3: meta references resolve (string groundwork) -/

theorem foldl_basename_append (l1 l2 : List Char) (acc : List Char) :
    (l1 ++ l2).foldl (fun acc c => if c = '/' then [] else acc ++ [c]) acc
      = l2.foldl (fun acc c => if c = '/' then [] else acc ++ [c])
          (l1.foldl (fun acc c => if c = '/' then [] else acc ++ [c]) acc) :=
  List.foldl_append _ _ _ _

theorem pageBasename_append_slash (d b : String) :
    pageBasename (d ++ "/" ++ b) = pageBasename b := by
  unfold pageBasename
  congr 1
  rw [String.data_append, String.data_append, foldl_basename_append,
    foldl_basename_append]
  have hslash : ("/" : String).data = ['/'] := rfl
  rw [hslash]
  rfl

theorem foldl_basename_all (l : List Char) :
    ∀ acc, acc.all (fun c => c ≠ '/') = true →
    (l.foldl (fun acc c => if c = '/' then [] else acc ++ [c]) acc).all
        (fun c => c ≠ '/') = true := by
  induction l with
  | nil => exact fun acc h => h
  | cons c rest ih =>
    intro acc h
    rw [List.foldl_cons]
    by_cases hc : c = '/'
    · simp only [hc, if_pos rfl]
      exact ih [] rfl
    · simp only [if_neg hc]
      refine ih (acc ++ [c]) ?_
      simp only [List.all_append, Bool.and_eq_true, h, List.all_cons, List.all_nil,
        Bool.and_true, decide_eq_true_eq]
      exact ⟨trivial, hc⟩

theorem slashFree_pageBasename (s : String) : slashFree (pageBasename s) = true := by
  unfold slashFree pageBasename
  exact foldl_basename_all s.data [] rfl

theorem foldl_basename_of_all (l : List Char) :
    ∀ acc, l.all (fun c => c ≠ '/') = true →
    l.foldl (fun acc c => if c = '/' then [] else acc ++ [c]) acc = acc ++ l := by
  induction l with
  | nil => intro acc _; simp
  | cons c rest ih =>
    intro acc h
    simp only [List.all_cons, Bool.and_eq_true, decide_eq_true_eq] at h
    rw [List.foldl_cons, if_neg h.1, ih (acc ++ [c]) h.2]
    simp

theorem pageBasename_of_slashFree (b : String) (hb : slashFree b = true) :
    pageBasename b = b := by
  unfold pageBasename
  rw [foldl_basename_of_all b.data [] (by simpa [slashFree] using hb)]
  cases b with
  | mk d => rfl

theorem pageBasename_idem (s : String) :
    pageBasename (pageBasename s) = pageBasename s :=
  pageBasename_of_slashFree _ (slashFree_pageBasename s)

theorem append_slash_ne (d b : String) : d ++ "/" ++ b ≠ d := by
  intro h
  have := congrArg String.length h
  rw [String.length_append, String.length_append] at this
  have h1 : ("/" : String).length = 1 := rfl
  omega

theorem stripBang_bang (x : String) : stripBang ("!" ++ x) = x := by
  unfold stripBang
  have : ("!" ++ x).data = '!' :: x.data := by
    rw [String.data_append]
    rfl
  rw [this]
  cases x with
  | mk d => rfl

theorem resolves_mono {pm pm' : List PageMapping} {mfs mfs' : List MetaFile}
    {dir e : String}
    (hpm : ∀ x ∈ pm, x ∈ pm') (hmf : ∀ x ∈ mfs, x ∈ mfs')
    (h : resolves pm mfs dir e) : resolves pm' mfs' dir e := by
  rcases h with h | h | ⟨m, hm, hx⟩ | ⟨mf, hm, hx⟩
  · exact Or.inl h
  · exact Or.inr (Or.inl h)
  · exact Or.inr (Or.inr (Or.inl ⟨m, hpm m hm, hx⟩))
  · exact Or.inr (Or.inr (Or.inr ⟨mf, hmf mf hm, hx⟩))


/- ## Claim C3: resolution of every meta reference -/

theorem groupWF_slashFree (g : CGroup) (h : groupWF g = true) :
    slashFree g.slug = true := by
  cases g with
  | mk label slug icon tag description expanded hidden pages =>
    simp only [groupWF, Bool.and_eq_true] at h
    exact h.1

mutual
theorem addGroup_resolves (g : CGroup) (D : String) (hwf : groupWF g = true) :
    (∀ mf ∈ (addGroup g D).2, ∀ e ∈ mf.data.pages,
        resolves (addGroup g D).1 (addGroup g D).2 mf.dir e)
    ∧ (∃ mf ∈ (addGroup g D).2, mf.dir = D ++ "/" ++ g.slug) := by
  match g with
  | .mk label slug icon tag desc exp hid pages =>
    have hwf2 : slashFree slug = true ∧ entriesWF pages = true := by
      simpa only [groupWF, Bool.and_eq_true] using hwf
    have hW := walkGroupItems_resolves pages (D ++ "/" ++ slug) hwf2.2
    constructor
    · intro mf hmf e he
      simp only [addGroup] at hmf ⊢
      rcases List.mem_append.mp hmf with hmf1 | hmf2
      · exact resolves_mono (fun x hx => hx) (fun x hx => List.mem_append_left _ hx)
          (hW.1 mf hmf1 e he)
      · rcases List.mem_singleton.mp hmf2 with rfl
        have he2 : e ∈ (walkGroupItems pages (D ++ "/" ++ slug)).2.2 := by
          simpa [groupMeta] using he
        exact resolves_mono (fun x hx => hx) (fun x hx => List.mem_append_left _ hx)
          (hW.2 e he2)
    · refine ⟨⟨D ++ "/" ++ slug,
        groupMeta label exp icon desc (walkGroupItems pages (D ++ "/" ++ slug)).2.2⟩,
        ?_, rfl⟩
      simp [addGroup]

theorem walkGroupItems_resolves (items : List CEntry) (dir : String)
    (hwf : entriesWF items = true) :
    (∀ mf ∈ (walkGroupItems items dir).2.1, ∀ e ∈ mf.data.pages,
        resolves (walkGroupItems items dir).1 (walkGroupItems items dir).2.1 mf.dir e)
    ∧ (∀ e ∈ (walkGroupItems items dir).2.2,
        resolves (walkGroupItems items dir).1 (walkGroupItems items dir).2.1 dir e) := by
  match items with
  | [] =>
    constructor
    · intro mf hmf
      simp [walkGroupItems] at hmf
    · intro e he
      simp [walkGroupItems] at he
  | CEntry.page s :: rest =>
    have hwfr : entriesWF rest = true := by
      simpa only [entriesWF, Bool.and_eq_true, Bool.true_and] using hwf
    have hR := walkGroupItems_resolves rest dir hwfr
    constructor
    · intro mf hmf e he
      simp only [walkGroupItems] at hmf ⊢
      exact resolves_mono (fun x hx => List.mem_cons_of_mem _ hx) (fun x hx => hx)
        (hR.1 mf hmf e he)
    · intro e he
      simp only [walkGroupItems] at he ⊢
      rcases List.mem_cons.mp he with rfl | he2
      · refine Or.inr (Or.inr (Or.inl
          ⟨⟨s, dir ++ "/" ++ pageBasename s⟩, List.mem_cons_self _ _, Or.inl ?_⟩))
        rw [pageBasename_append_slash, pageBasename_idem]
      · exact resolves_mono (fun x hx => List.mem_cons_of_mem _ hx) (fun x hx => hx)
          (hR.2 e he2)
  | CEntry.group g :: rest =>
    have hwfp : groupWF g = true ∧ entriesWF rest = true := by
      simpa only [entriesWF, Bool.and_eq_true] using hwf
    have hA := addGroup_resolves g dir hwfp.1
    have hR := walkGroupItems_resolves rest dir hwfp.2
    constructor
    · intro mf hmf e he
      simp only [walkGroupItems] at hmf ⊢
      rcases List.mem_append.mp hmf with hmf1 | hmf2
      · exact resolves_mono (fun x hx => List.mem_append_left _ hx)
          (fun x hx => List.mem_append_left _ hx) (hA.1 mf hmf1 e he)
      · exact resolves_mono (fun x hx => List.mem_append_right _ hx)
          (fun x hx => List.mem_append_right _ hx) (hR.1 mf hmf2 e he)
    · intro e he
      simp only [walkGroupItems] at he ⊢
      rcases List.mem_cons.mp he with rfl | he2
      · rcases hA.2 with ⟨mfg, hmfg, hdir⟩
        refine Or.inr (Or.inr (Or.inr ⟨mfg, List.mem_append_left _ hmfg, ?_, ?_⟩))
        · rw [hdir]
          exact append_slash_ne dir g.slug
        · have hbase : pageBasename mfg.dir = g.slug := by
            rw [hdir, pageBasename_append_slash,
              pageBasename_of_slashFree _ (groupWF_slashFree g hwfp.1)]
          by_cases hh : truthyBool g.hidden = true
          · rw [if_pos hh]
            exact Or.inr (Or.inl (by rw [hbase, stripBang_bang]))
          · rw [if_neg hh]
            exact Or.inl hbase.symm
      · exact resolves_mono (fun x hx => List.mem_append_right _ hx)
          (fun x hx => List.mem_append_right _ hx) (hR.2 e he2)
  | CEntry.sep l :: rest =>
    have hwfr : entriesWF rest = true := by
      simpa only [entriesWF, Bool.and_eq_true, Bool.true_and] using hwf
    have hR := walkGroupItems_resolves rest dir hwfr
    constructor
    · intro mf hmf e he
      simp only [walkGroupItems] at hmf ⊢
      exact hR.1 mf hmf e he
    · intro e he
      simp only [walkGroupItems] at he ⊢
      rcases List.mem_cons.mp he with rfl | he2
      · exact Or.inl ⟨l, rfl⟩
      · exact hR.2 e he2
  | CEntry.link h l i :: rest =>
    have hwfr : entriesWF rest = true := by
      simpa only [entriesWF, Bool.and_eq_true, Bool.true_and] using hwf
    have hR := walkGroupItems_resolves rest dir hwfr
    constructor
    · intro mf hmf e he
      simp only [walkGroupItems] at hmf ⊢
      exact hR.1 mf hmf e he
    · intro e he
      simp only [walkGroupItems] at he ⊢
      rcases List.mem_cons.mp he with rfl | he2
      · exact Or.inr (Or.inl ⟨h, l, i, rfl⟩)
      · exact hR.2 e he2
end


theorem walkTabGroups_resolves (gs : List CGroup) (slug : String)
    (hwf : gs.all groupWF = true) :
    (∀ mf ∈ (walkTabGroups gs slug).2.1, ∀ e ∈ mf.data.pages,
        resolves (walkTabGroups gs slug).1 (walkTabGroups gs slug).2.1 mf.dir e)
    ∧ (∀ e ∈ (walkTabGroups gs slug).2.2,
        resolves (walkTabGroups gs slug).1 (walkTabGroups gs slug).2.1 slug e) := by
  induction gs with
  | nil =>
    constructor
    · intro mf hmf
      simp [walkTabGroups] at hmf
    · intro e he
      simp [walkTabGroups] at he
  | cons g rest ih =>
    have hp : groupWF g = true ∧ rest.all groupWF = true := by simpa using hwf
    have hA := addGroup_resolves g slug hp.1
    have hR := ih hp.2
    constructor
    · intro mf hmf e he
      simp only [walkTabGroups] at hmf ⊢
      rcases List.mem_append.mp hmf with hmf1 | hmf2
      · exact resolves_mono (fun x hx => List.mem_append_left _ hx)
          (fun x hx => List.mem_append_left _ hx) (hA.1 mf hmf1 e he)
      · exact resolves_mono (fun x hx => List.mem_append_right _ hx)
          (fun x hx => List.mem_append_right _ hx) (hR.1 mf hmf2 e he)
    · intro e he
      simp only [walkTabGroups] at he ⊢
      rcases List.mem_cons.mp he with rfl | he2
      · rcases hA.2 with ⟨mfg, hmfg, hdir⟩
        refine Or.inr (Or.inr (Or.inr ⟨mfg, List.mem_append_left _ hmfg, ?_, ?_⟩))
        · rw [hdir]
          exact append_slash_ne slug g.slug
        · have hbase : pageBasename mfg.dir = g.slug := by
            rw [hdir, pageBasename_append_slash,
              pageBasename_of_slashFree _ (groupWF_slashFree g hp.1)]
          by_cases hh : truthyBool g.hidden = true
          · rw [if_pos hh]
            exact Or.inr (Or.inl (by rw [hbase, stripBang_bang]))
          · rw [if_neg hh]
            exact Or.inl hbase.symm
      · exact resolves_mono (fun x hx => List.mem_append_right _ hx)
          (fun x hx => List.mem_append_right _ hx) (hR.2 e he2)

theorem walkTabPages_resolves (items : List CEntry) (slug : String)
    (hng : noGroupEntries items = true) :
    ∀ e ∈ (walkTabPages items slug).2,
      resolves (walkTabPages items slug).1 [] slug e := by
  induction items with
  | nil =>
    intro e he
    simp [walkTabPages] at he
  | cons item rest ih =>
    intro e he
    cases item with
    | page s =>
      have hr : noGroupEntries rest = true := by
        simpa only [noGroupEntries, Bool.and_eq_true, Bool.true_and] using hng
      simp only [walkTabPages] at he ⊢
      rcases List.mem_cons.mp he with rfl | he2
      · refine Or.inr (Or.inr (Or.inl
          ⟨⟨s, slug ++ "/" ++ pageBasename s⟩, List.mem_cons_self _ _, Or.inl ?_⟩))
        rw [pageBasename_append_slash, pageBasename_idem]
      · exact resolves_mono (fun x hx => List.mem_cons_of_mem _ hx) (fun x hx => hx)
          (ih hr e he2)
    | sep l =>
      have hr : noGroupEntries rest = true := by
        simpa only [noGroupEntries, Bool.and_eq_true, Bool.true_and] using hng
      simp only [walkTabPages, metaEntry] at he ⊢
      rcases List.mem_cons.mp he with rfl | he2
      · exact Or.inl ⟨l, rfl⟩
      · exact ih hr e he2
    | link h l i =>
      have hr : noGroupEntries rest = true := by
        simpa only [noGroupEntries, Bool.and_eq_true, Bool.true_and] using hng
      simp only [walkTabPages, metaEntry] at he ⊢
      rcases List.mem_cons.mp he with rfl | he2
      · exact Or.inr (Or.inl ⟨h, l, i, rfl⟩)
      · exact ih hr e he2
    | group g =>
      exfalso
      simp [noGroupEntries] at hng

theorem buildTab_resolves (t : CTab) (hwf : tabWF t = true) :
    (∀ mf ∈ (buildTab t).2, ∀ e ∈ mf.data.pages,
        resolves (buildTab t).1 (buildTab t).2 mf.dir e)
    ∧ (∃ mf ∈ (buildTab t).2, mf.dir = t.slug) := by
  have hw : (!(t.slug == "")) = true ∧ (t.groups.getD []).all groupWF = true
      ∧ noGroupEntries (t.pages.getD []) = true := by
    simpa only [tabWF, Bool.and_eq_true, and_assoc] using hwf
  have hG := walkTabGroups_resolves (t.groups.getD []) t.slug hw.2.1
  have hP := walkTabPages_resolves (t.pages.getD []) t.slug hw.2.2
  constructor
  · intro mf hmf e he
    simp only [buildTab] at hmf ⊢
    rcases List.mem_append.mp hmf with hmf1 | hmf2
    · exact resolves_mono (fun x hx => List.mem_append_left _ hx)
        (fun x hx => List.mem_append_left _ hx) (hG.1 mf hmf1 e he)
    · rcases List.mem_singleton.mp hmf2 with rfl
      have he2 : e ∈ (walkTabGroups (t.groups.getD []) t.slug).2.2
          ++ (walkTabPages (t.pages.getD []) t.slug).2 := by
        simpa [tabMeta] using he
      rcases List.mem_append.mp he2 with he3 | he3
      · exact resolves_mono (fun x hx => List.mem_append_left _ hx)
          (fun x hx => List.mem_append_left _ hx) (hG.2 e he3)
      · refine resolves_mono (fun x hx => List.mem_append_right _ hx)
          (fun x hx => ?_) (hP e he3)
        simp at hx
  · refine ⟨⟨t.slug, tabMeta t ((walkTabGroups (t.groups.getD []) t.slug).2.2
      ++ (walkTabPages (t.pages.getD []) t.slug).2)⟩, ?_, rfl⟩
    simp [buildTab]

theorem walkTabs_resolves (ts : List CTab) (hwf : tabsWF ts = true) :
    (∀ mf ∈ (walkTabs ts).2, ∀ e ∈ mf.data.pages,
        resolves (walkTabs ts).1 (walkTabs ts).2 mf.dir e)
    ∧ (∀ t ∈ ts, ∃ mf ∈ (walkTabs ts).2, mf.dir = t.slug) := by
  induction ts with
  | nil =>
    constructor
    · intro mf hmf
      simp [walkTabs] at hmf
    · intro t ht
      simp at ht
  | cons t rest ih =>
    have hp : tabWF t = true ∧ tabsWF rest = true := by
      simpa [tabsWF] using hwf
    have hB := buildTab_resolves t hp.1
    have hR := ih hp.2
    constructor
    · intro mf hmf e he
      simp only [walkTabs] at hmf ⊢
      rcases List.mem_append.mp hmf with hmf1 | hmf2
      · exact resolves_mono (fun x hx => List.mem_append_left _ hx)
          (fun x hx => List.mem_append_left _ hx) (hB.1 mf hmf1 e he)
      · exact resolves_mono (fun x hx => List.mem_append_right _ hx)
          (fun x hx => List.mem_append_right _ hx) (hR.1 mf hmf2 e he)
    · intro t2 ht2
      simp only [walkTabs]
      rcases List.mem_cons.mp ht2 with rfl | ht3
      · rcases hB.2 with ⟨mf, hmf, hdir⟩
        exact ⟨mf, List.mem_append_left _ hmf, hdir⟩
      · rcases hR.2 t2 ht3 with ⟨mf, hmf, hdir⟩
        exact ⟨mf, List.mem_append_right _ hmf, hdir⟩

theorem tabsWF_filter (tabs : List CTab) (hwf : tabsWF tabs = true) :
    tabsWF (tabs.filter (fun t => !truthyStr t.href)) = true := by
  simp only [tabsWF, List.all_eq_true] at hwf ⊢
  intro t ht
  exact hwf t (List.mem_of_mem_filter ht)

theorem tabWF_slug_ne (t : CTab) (h : tabWF t = true) : t.slug ≠ "" := by
  simp only [tabWF, Bool.and_eq_true, Bool.not_eq_true', beq_eq_false_iff_ne,
    ne_eq] at h
  exact h.1.1

/-- C3 (amended): for every canonical tab list satisfying the normalizer's
invariants (slash-free group slugs, non-empty tab slugs, group-free tab
page lists), every entry of every emitted MetaFile's pages list is a
separator or link encoding, or — as-is or after stripping a leading '!' —
matches the basename of some PageMapping's dest, or the basename or the
full path of another MetaFile's dir (the full-path case arises for root
meta entries naming prefixed tab slugs such as "acme/guides"). -/
theorem c3_meta_references_amended (tabs : List CTab) (hwf : tabsWF tabs = true) :
    ∀ mf ∈ (buildArtifacts tabs).metaFiles, ∀ e ∈ mf.data.pages,
      resolves (buildArtifacts tabs).pageMap (buildArtifacts tabs).metaFiles mf.dir e := by
  have hwfR := tabsWF_filter tabs hwf
  have hW := walkTabs_resolves (tabs.filter (fun t => !truthyStr t.href)) hwfR
  intro mf hmf e he
  have hsplit : mf ∈ (walkTabs (tabs.filter (fun t => !truthyStr t.href))).2
      ∨ (0 < (tabs.filter (fun t => !truthyStr t.href)).length
          ∧ mf = ⟨"", rootMetaData
              ((tabs.filter (fun t => !truthyStr t.href)).map CTab.slug)⟩) := by
    simp only [buildArtifacts] at hmf
    rcases List.mem_append.mp hmf with h1 | h2
    · exact Or.inl h1
    · by_cases hlen : 0 < ((tabs.filter (fun t => !truthyStr t.href)).map CTab.slug).length
      · rw [if_pos hlen] at h2
        rcases List.mem_singleton.mp h2 with rfl
        exact Or.inr ⟨by simpa using hlen, rfl⟩
      · rw [if_neg hlen] at h2
        exact absurd h2 (List.not_mem_nil mf)
  rcases hsplit with hmf1 | ⟨hlen, rfl⟩
  · exact resolves_mono (fun x hx => hx)
      (fun x hx => by
        simp only [buildArtifacts]
        exact List.mem_append_left _ hx)
      (hW.1 mf hmf1 e he)
  · have he2 : e ∈ (tabs.filter (fun t => !truthyStr t.href)).map CTab.slug := by
      simpa [rootMetaData] using he
    rcases List.mem_map.mp he2 with ⟨t, ht, rfl⟩
    rcases hW.2 t ht with ⟨mf2, hmf2, hdir⟩
    refine Or.inr (Or.inr (Or.inr ⟨mf2, ?_, ?_, Or.inr (Or.inr (Or.inl hdir.symm))⟩))
    · simp only [buildArtifacts]
      exact List.mem_append_left _ hmf2
    · rw [hdir]
      exact tabWF_slug_ne t (by
        simp only [tabsWF, List.all_eq_true] at hwfR
        exact hwfR t ht)

/-- Closed witness for the amended C3: the root meta entry "t" of a
concrete one-tab build resolves; the theorem is applied at that build with
its well-formedness hypothesis discharged. -/
theorem c3_meta_references_amended_witness :
    resolves (buildArtifacts [wTab]).pageMap (buildArtifacts [wTab]).metaFiles "" "t" :=
  c3_meta_references_amended [wTab] (by decide)
    (MetaFile.mk "" (rootMetaData ["t"])) (by decide) "t" (by decide)


/-- C3 counterexample: for the canonical tab list containing the prefixed
tab slug "acme/guides" (as the normalizer produces under a product), the
root meta's entry "acme/guides" matches no PageMapping-dest basename and no
other MetaFile-dir basename — the claim's basename-only invariant fails. -/
theorem c3_counterexample :
    ∃ mf ∈ (buildArtifacts [acmeTab]).metaFiles, ∃ e ∈ mf.data.pages,
      ¬ resolvesBasename (buildArtifacts [acmeTab]).pageMap
          (buildArtifacts [acmeTab]).metaFiles mf.dir e := by
  refine ⟨MetaFile.mk "" (rootMetaData ["acme/guides"]), by decide,
    "acme/guides", by decide, ?_⟩
  have hhead : ("acme/guides" : String).data.head? = some 'a' := rfl
  rintro (⟨l, hl⟩ | ⟨h, l, ic, hl⟩ | ⟨m, hm, hx⟩ | ⟨mf2, hm, hx⟩)
  · rw [hl] at hhead
    have hd : ("---" ++ l ++ "---").data = ('-' :: '-' :: '-' :: l.data) ++
        ['-', '-', '-'] := by
      rw [String.data_append, String.data_append]
      rfl
    rw [hd] at hhead
    simp at hhead
  · rw [hl] at hhead
    unfold linkEntry at hhead
    by_cases hic : truthyStr ic = true
    · rw [if_pos hic] at hhead
      have hd : ("[" ++ ic.getD "" ++ "][" ++ l ++ "](" ++ h ++ ")").data
          = '[' :: ((ic.getD "").data ++ "][".data ++ l.data ++ "](".data
              ++ h.data ++ ")".data) := by
        simp only [String.data_append]
        rfl
      rw [hd] at hhead
      simp at hhead
    · rw [if_neg hic] at hhead
      have hd : ("[" ++ l ++ "](" ++ h ++ ")").data
          = '[' :: (l.data ++ "](".data ++ h.data ++ ")".data) := by
        simp only [String.data_append]
        rfl
      rw [hd] at hhead
      simp at hhead
  · have hpm : (buildArtifacts [acmeTab]).pageMap
        = [⟨"intro", "acme/guides/intro"⟩] := rfl
    rw [hpm] at hm
    rcases List.mem_singleton.mp hm with rfl
    revert hx
    decide
  · have hmfs : (buildArtifacts [acmeTab]).metaFiles
        = [⟨"acme/guides", MetaData.mk (some "Guides") true ["intro"] none none none⟩,
           ⟨"", MetaData.mk none false ["acme/guides"] none none none⟩] := rfl
    rw [hmfs] at hm
    rcases List.mem_cons.mp hm with rfl | hm2
    · revert hx
      decide
    · rcases List.mem_singleton.mp hm2 with rfl
      revert hx
      decide


/- ## The normalizer establishes the C3 invariants -/

theorem collapseRuns_chars (b : Bool) (l : List Char) :
    (collapseRuns b l).all (fun c => isSlugChar c || c = '-') = true := by
  induction l generalizing b with
  | nil => rfl
  | cons c rest ih =>
    unfold collapseRuns
    by_cases hc : isSlugChar c = true
    · simp only [hc, if_true, List.all_cons]
      simp [hc, ih false]
    · simp only [hc, Bool.false_eq_true, if_false]
      by_cases hb : b = true
      · simp [hb, ih true]
      · simp only [hb, Bool.false_eq_true, if_false, List.all_cons]
        simp [ih true]

theorem all_dropWhile {p q : Char → Bool} (l : List Char)
    (h : l.all p = true) : (l.dropWhile q).all p = true := by
  rw [List.all_eq_true] at h ⊢
  intro x hx
  exact h x (List.dropWhile_subset q hx)

theorem stripHyphens_chars {p : Char → Bool} (l : List Char)
    (h : l.all p = true) : (stripHyphens l).all p = true := by
  unfold stripHyphens
  rw [List.all_reverse]
  refine all_dropWhile _ ?_
  rw [List.all_reverse]
  exact all_dropWhile _ h

theorem slashFree_slugCore (input : String) : slashFree (slugCore input) = true := by
  unfold slashFree slugCore
  have h1 := collapseRuns_chars false
    (((input.data.map Char.toLower).dropWhile Char.isWhitespace).reverse.dropWhile
        Char.isWhitespace).reverse
  have h2 := stripHyphens_chars _ h1
  rw [List.all_eq_true] at h2 ⊢
  intro x hx
  have := h2 x hx
  simp only [Bool.or_eq_true, decide_eq_true_eq] at this ⊢
  intro habs
  rcases this with hs | hd
  · rw [habs] at hs
    exact absurd hs (by decide)
  · rw [habs] at hd
    exact absurd hd (by decide)

theorem slashFree_slugify (input fb : String) (hfb : slashFree fb = true) :
    slashFree (slugify input fb) = true := by
  unfold slugify
  by_cases h : slugCore input = ""
  · rw [if_pos h]
    exact hfb
  · rw [if_neg h]
    exact slashFree_slugCore input

theorem slashFree_append (a b : String) (ha : slashFree a = true)
    (hb : slashFree b = true) : slashFree (a ++ b) = true := by
  unfold slashFree at *
  rw [String.data_append, List.all_append, ha, hb]
  rfl

theorem slashFree_repr (n : Nat) : slashFree (Nat.repr n) = true := by
  have key : ∀ m : Nat, (Nat.toDigits 10 m).all (fun c => c ≠ '/') = true := by
    intro m
    induction m using Nat.strong_induction_on with
    | _ m ih =>
      have hd : ∀ d : Nat, d < 10 → (Nat.digitChar d ≠ '/') := by
        intro d hlt
        interval_cases d <;> decide
      by_cases h : m / 10 = 0
      · rw [toDigits_eq_of_div_eq_zero m h]
        simp [hd (m % 10) (Nat.mod_lt m (by decide))]
      · have hm0 : 0 < m := by
          rcases Nat.eq_zero_or_pos m with h0 | h0
          · exact absurd (by simp [h0]) h
          · exact h0
        rw [toDigits_eq_of_div_ne_zero m h, List.all_append]
        rw [ih (m / 10) (Nat.div_lt_self hm0 (by decide))]
        simp [hd (m % 10) (Nat.mod_lt m (by decide))]
  unfold slashFree
  rw [repr_data]
  exact key n

theorem slashFree_slugCand (base : String) (k : Nat) (hb : slashFree base = true) :
    slashFree (slugCand base k) = true := by
  unfold slugCand
  exact slashFree_append _ _ (slashFree_append _ _ hb (by decide)) (slashFree_repr k)

theorem slashFree_probeSlug (base : String) (used : List String)
    (hb : slashFree base = true) :
    ∀ fuel count, slashFree (probeSlug base used count fuel) = true := by
  intro fuel
  induction fuel with
  | zero => intro count; exact slashFree_slugCand base count hb
  | succ f ih =>
    intro count
    unfold probeSlug
    by_cases h : jsHas used (slugCand base count) = true
    · rw [if_pos h]
      exact ih (count + 1)
    · rw [if_neg h]
      exact slashFree_slugCand base count hb

theorem slashFree_uniqueSlug (base : String) (used : List String)
    (hb : slashFree base = true) : slashFree (uniqueSlug base used).1 = true := by
  unfold uniqueSlug
  by_cases h : jsHas used base = true
  · simp only [h, Bool.not_true, Bool.false_eq_true, if_false]
    exact slashFree_probeSlug base used hb _ _
  · simp only [Bool.not_eq_true', Bool.not_true] at h
    simp only [h, Bool.not_false, if_true]
    exact hb

theorem slugCand_ne_empty (base : String) (k : Nat) : slugCand base k ≠ "" := by
  intro h
  have := congrArg String.length h
  rw [slugCand, String.length_append, String.length_append] at this
  have h1 : ("-" : String).length = 1 := rfl
  have h2 : ("" : String).length = 0 := rfl
  omega

theorem probeSlug_ne_empty (base : String) (used : List String) (fuel count : Nat) :
    probeSlug base used count fuel ≠ "" := by
  induction fuel generalizing count with
  | zero => exact slugCand_ne_empty base count
  | succ f ih =>
    unfold probeSlug
    by_cases h : jsHas used (slugCand base count) = true
    · rw [if_pos h]
      exact ih (count + 1)
    · rw [if_neg h]
      exact slugCand_ne_empty base count

theorem uniqueSlug_ne_empty (base : String) (used : List String) (hb : base ≠ "") :
    (uniqueSlug base used).1 ≠ "" := by
  unfold uniqueSlug
  by_cases h : jsHas used base = true
  · simp only [h, Bool.not_true, Bool.false_eq_true, if_false]
    exact probeSlug_ne_empty base used _ _
  · simp only [Bool.not_eq_true', Bool.not_true] at h
    simp only [h, Bool.not_false, if_true]
    exact hb

theorem slugify_ne_empty (input fb : String) (hfb : fb ≠ "") :
    slugify input fb ≠ "" := by
  unfold slugify
  by_cases h : slugCore input = ""
  · rw [if_pos h]; exact hfb
  · rw [if_neg h]; exact h


theorem entriesWF_append (a b : List CEntry) :
    entriesWF (a ++ b) = (entriesWF a && entriesWF b) := by
  induction a with
  | nil => simp [entriesWF]
  | cons e rest ih =>
    cases e <;> simp [entriesWF, ih, Bool.and_assoc]

theorem entriesWF_singleton_link (h l : String) (i : Option String) :
    entriesWF [CEntry.link h l i] = true := rfl

theorem normalizerWF (fuel : Nat) :
    (∀ r used, entriesWF (collectEntries fuel r used).1 = true)
    ∧ (∀ l used, entriesWF (collectMenuList fuel l used).1 = true)
    ∧ (∀ l used, entriesWF (collectGroupList fuel l used).1 = true)
    ∧ (∀ l used, entriesWF (collectPageList fuel l used).1 = true)
    ∧ (∀ l used, entriesWF (collectAnchorList fuel l used).1 = true)
    ∧ (∀ l used, entriesWF (collectDropdownList fuel l used).1 = true)
    ∧ (∀ l used, entriesWF (collectTabList fuel l used).1 = true)
    ∧ (∀ r used, groupWF (normalizeGroup fuel r used).1 = true)
    ∧ (∀ r used, groupWF (normalizeMenuItem fuel r used).1 = true)
    ∧ (∀ r used, groupWF (normalizeAnchorAsGroup fuel r used).1 = true)
    ∧ (∀ a b c d content used,
        groupWF (normalizeTabAsGroupCore fuel a b c d content used).1 = true) := by
  induction fuel with
  | zero =>
    have h0 : groupWF emptyCGroup = true := by decide
    exact ⟨fun r used => rfl, fun l used => rfl, fun l used => rfl, fun l used => rfl,
      fun l used => rfl, fun l used => rfl, fun l used => rfl,
      fun r used => h0, fun r used => h0, fun r used => h0,
      fun a b c d content used => h0⟩
  | succ f ih =>
    obtain ⟨ihCE, ihM, ihG, ihP, ihA, ihD, ihT, ihNG, ihNM, ihNA, ihCORE⟩ := ih
    have hgrp : ∀ name slug icon tag desc exp hid pages,
        slashFree slug = true → entriesWF pages = true →
        groupWF (CGroup.mk name slug icon tag desc exp hid pages) = true := by
      intro name slug icon tag desc exp hid pages h1 h2
      simp [groupWF, h1, h2]
    have hslugged : ∀ (raw fb : String), slashFree fb = true →
        ∀ used, slashFree (uniqueSlug (slugify raw fb) used).1 = true := by
      intro raw fb hfb used
      exact slashFree_uniqueSlug _ _ (slashFree_slugify raw fb hfb)
    refine ⟨?_, ?_, ?_, ?_, ?_, ?_, ?_, ?_, ?_, ?_, ?_⟩
    · intro r used
      simp only [collectEntries]
      rw [entriesWF_append, entriesWF_append, entriesWF_append, entriesWF_append,
        entriesWF_append]
      simp [ihM, ihG, ihP, ihA, ihD, ihT]
    · intro l used
      cases l with
      | nil => rfl
      | cons x rest =>
        simp only [collectMenuList]
        by_cases h : isMenuItemRaw x = true
        · simp only [h, if_true, entriesWF]
          simp [ihNM, ihM]
        · simp only [h, Bool.false_eq_true, if_false]
          exact ihM rest used
    · intro l used
      cases l with
      | nil => rfl
      | cons x rest =>
        simp only [collectGroupList]
        by_cases h : isGroupLikeRaw x = true
        · simp only [h, if_true, entriesWF]
          simp [ihNG, ihG]
        · simp only [h, Bool.false_eq_true, if_false]
          exact ihG rest used
    · intro l used
      cases l with
      | nil => rfl
      | cons x rest =>
        cases x with
        | str s =>
          simp only [collectPageList, entriesWF]
          simp [ihP]
        | node fx =>
          simp only [collectPageList]
          by_cases h1 : isSeparatorRaw (Raw.node fx) = true
          · simp only [h1, if_true, entriesWF]
            simp [ihP]
          · simp only [h1, Bool.false_eq_true, if_false]
            by_cases h2 : isLinkRaw (Raw.node fx) = true
            · simp only [h2, if_true, entriesWF, normalizeLink]
              simp [ihP]
            · simp only [h2, Bool.false_eq_true, if_false]
              by_cases h3 : isGroupLikeRaw (Raw.node fx) = true
              · simp only [h3, if_true, entriesWF]
                simp [ihNG, ihP]
              · simp only [h3, Bool.false_eq_true, if_false]
                exact ihP rest used
    · intro l used
      cases l with
      | nil => rfl
      | cons x rest =>
        simp only [collectAnchorList]
        by_cases h1 : isAnchorLikeRaw x = true
        · simp only [h1, Bool.not_true, Bool.false_eq_true, if_false]
          by_cases h2 : (truthyStr x.fields.href && !hasContent x) = true
          · simp only [h2, if_true, entriesWF, normalizeAnchorLink]
            simp [ihA]
          · simp only [h2, Bool.false_eq_true, if_false, entriesWF]
            simp [ihNA, ihA]
        · simp only [h1, Bool.not_eq_true', Bool.not_true] at *
          simp only [h1, Bool.not_false, if_true]
          exact ihA rest used
    · intro l used
      cases l with
      | nil => rfl
      | cons x rest =>
        simp only [collectDropdownList]
        by_cases h : isDropdownLikeRaw x = true
        · simp only [h, if_true, entriesWF]
          simp [ihCORE, ihD]
        · simp only [h, Bool.false_eq_true, if_false]
          exact ihD rest used
    · intro l used
      cases l with
      | nil => rfl
      | cons x rest =>
        simp only [collectTabList]
        by_cases h : isTabLikeRaw x = true
        · simp only [h, if_true, entriesWF]
          simp [ihCORE, ihT]
        · simp only [h, Bool.false_eq_true, if_false]
          exact ihT rest used
    · intro r used
      simp only [normalizeGroup]
      exact hgrp _ _ _ _ _ _ _ _ (hslugged _ "group" (by decide) used) (ihCE r [])
    · intro r used
      simp only [normalizeMenuItem]
      exact hgrp _ _ _ _ _ _ _ _ (hslugged _ "menu" (by decide) used) (ihCE r [])
    · intro r used
      simp only [normalizeAnchorAsGroup]
      exact hgrp _ _ _ _ _ _ _ _ (hslugged _ "anchor" (by decide) used) (ihCE r [])
    · intro a b c d content used
      simp only [normalizeTabAsGroupCore]
      by_cases h : (truthyStr d && !hasContent content) = true
      · simp only [h, if_true]
        refine hgrp _ _ _ _ _ _ _ _ (hslugged _ "tab" (by decide) used) ?_
        rw [entriesWF_append]
        simp [ihCE, entriesWF_singleton_link]
      · simp only [h, Bool.false_eq_true, if_false]
        exact hgrp _ _ _ _ _ _ _ _ (hslugged _ "tab" (by decide) used) (ihCE content [])


theorem all_groupWF_filterMap (l : List CEntry) (hwf : entriesWF l = true) :
    (l.filterMap (fun e => match e with
      | CEntry.group g => some g
      | _ => none)).all groupWF = true := by
  induction l with
  | nil => rfl
  | cons e rest ih =>
    cases e with
    | group g =>
      simp only [entriesWF, Bool.and_eq_true] at hwf
      simp only [List.filterMap_cons, List.all_cons, Bool.and_eq_true]
      exact ⟨hwf.1, ih hwf.2⟩
    | page s =>
      simp only [entriesWF, Bool.and_eq_true, Bool.true_and] at hwf
      simpa using ih hwf
    | sep lab =>
      simp only [entriesWF, Bool.and_eq_true, Bool.true_and] at hwf
      simpa using ih hwf
    | link h lab i =>
      simp only [entriesWF, Bool.and_eq_true, Bool.true_and] at hwf
      simpa using ih hwf

theorem noGroupEntries_filter (l : List CEntry) :
    noGroupEntries (l.filter (fun e => match e with
      | CEntry.group _ => false
      | _ => true)) = true := by
  induction l with
  | nil => rfl
  | cons e rest ih =>
    cases e with
    | group g => simpa using ih
    | page s => simpa [noGroupEntries] using ih
    | sep lab => simpa [noGroupEntries] using ih
    | link h lab i => simpa [noGroupEntries] using ih

theorem append_slash_ne_empty (p x : String) : p ++ "/" ++ x ≠ "" := by
  intro h
  have := congrArg String.length h
  rw [String.length_append, String.length_append] at this
  have h1 : ("/" : String).length = 1 := rfl
  have h2 : ("" : String).length = 0 := rfl
  omega

theorem tabWF_normalizeTabCore (fuel : Nat) (a b c d : Option String)
    (content : Raw) (used : List String) (pfx : String) :
    tabWF (normalizeTabCore fuel a b c d content used pfx).1 = true := by
  have hW := normalizerWF fuel
  have hfull : (if pfx ≠ "" then pfx ++ "/" ++ slugify (b.getD (a.getD "Tab")) "tab"
      else slugify (b.getD (a.getD "Tab")) "tab") ≠ "" := by
    by_cases hp : pfx ≠ ""
    · rw [if_pos hp]
      exact append_slash_ne_empty _ _
    · rw [if_neg hp]
      exact slugify_ne_empty _ "tab" (by decide)
  have hslug : (uniqueSlug (if pfx ≠ "" then
      pfx ++ "/" ++ slugify (b.getD (a.getD "Tab")) "tab"
      else slugify (b.getD (a.getD "Tab")) "tab") used).1 ≠ "" :=
    uniqueSlug_ne_empty _ _ hfull
  unfold normalizeTabCore
  by_cases hcond : (truthyStr d && !hasContent content) = true
  · rw [if_pos hcond]
    simp only [tabWF, Option.getD_none, List.all_nil, noGroupEntries, Bool.and_true]
    simpa using hslug
  · rw [if_neg hcond]
    simp only [tabWF]
    have hent := hW.1 content []
    have hgs := all_groupWF_filterMap (collectEntries fuel content []).1 hent
    have hps := noGroupEntries_filter (collectEntries fuel content []).1
    refine (Bool.and_eq_true _ _).mpr ⟨(Bool.and_eq_true _ _).mpr ⟨?_, ?_⟩, ?_⟩
    · simpa using hslug
    · by_cases hlen : 0 < ((collectEntries fuel content []).1.filterMap
          (fun e => match e with
            | CEntry.group g => some g
            | _ => none)).length
      · simp only [if_pos hlen, Option.getD_some]
        exact hgs
      · simp only [if_neg hlen, Option.getD_none, List.all_nil]
    · by_cases hlen : 0 < ((collectEntries fuel content []).1.filter
          (fun e => match e with
            | CEntry.group _ => false
            | _ => true)).length
      · simp only [if_pos hlen, Option.getD_some]
        exact hps
      · simp only [if_neg hlen, Option.getD_none, noGroupEntries]


theorem tabsWF_append2 (a b : List CTab) :
    tabsWF (a ++ b) = (tabsWF a && tabsWF b) := by
  simp [tabsWF, List.all_append]

theorem tabsWF_normalizeTabList (fuel : Nat) :
    ∀ (l : List Raw) (used : List String) (pfx : String),
    tabsWF (normalizeTabList fuel l used pfx).1 = true := by
  intro l
  induction l with
  | nil => intro used pfx; rfl
  | cons x rest ih =>
    intro used pfx
    by_cases h : isTabLikeRaw x = true
    · simp only [normalizeTabList, h, if_true, tabsWF, List.all_cons, Bool.and_eq_true]
      exact ⟨tabWF_normalizeTabCore fuel _ _ _ _ x _ pfx, ih _ pfx⟩
    · simp only [normalizeTabList, h, Bool.false_eq_true, if_false]
      exact ih used pfx

theorem tabsWF_normalizeDropdownList (fuel : Nat) :
    ∀ (l : List Raw) (used : List String) (pfx : String),
    tabsWF (normalizeDropdownList fuel l used pfx).1 = true := by
  intro l
  induction l with
  | nil => intro used pfx; rfl
  | cons x rest ih =>
    intro used pfx
    by_cases h : isDropdownLikeRaw x = true
    · simp only [normalizeDropdownList, h, if_true, tabsWF, List.all_cons,
        Bool.and_eq_true]
      exact ⟨tabWF_normalizeTabCore fuel _ _ _ _ x _ pfx, ih _ pfx⟩
    · simp only [normalizeDropdownList, h, Bool.false_eq_true, if_false]
      exact ih used pfx

theorem tabsWF_normalizeProducts (fuel : Nat) :
    ∀ (l : List Raw) (used : List String) (idx : Nat),
    tabsWF (normalizeProducts fuel l used idx).1 = true := by
  intro l
  induction l with
  | nil => intro used idx; rfl
  | cons p rest ih =>
    intro used idx
    by_cases hobj : isObjectRaw p = true
    · simp only [normalizeProducts, hobj, Bool.not_true, Bool.false_eq_true, if_false]
      rw [tabsWF_append2, tabsWF_append2, tabsWF_append2]
      rw [tabsWF_normalizeTabList, tabsWF_normalizeDropdownList, ih]
      simp only [Bool.true_and, Bool.and_true]
      by_cases harr : (p.fields.tabs.isNone && p.fields.dropdowns.isNone) = true
      · simp only [harr, if_true]
        by_cases hc : hasContent p = true
        · simp only [hc, if_true]
          simp [tabsWF, tabWF_normalizeTabCore]
        · simp only [hc, Bool.false_eq_true, if_false]
          by_cases hh : truthyStr p.fields.href = true
          · simp only [hh, if_true]
            simp [tabsWF, tabWF_normalizeTabCore]
          · simp only [hh, Bool.false_eq_true, if_false]
            rfl
      · simp only [harr, Bool.false_eq_true, if_false]
        rfl
    · simp only [normalizeProducts, hobj, Bool.not_eq_true', Bool.not_false, if_true]
      exact ih used (idx + 1)

theorem tabsWF_normalizeVersions (fuel : Nat) :
    ∀ (l : List Raw) (used : List String) (idx : Nat),
    tabsWF (normalizeVersions fuel l used idx).1 = true := by
  intro l
  induction l with
  | nil => intro used idx; rfl
  | cons p rest ih =>
    intro used idx
    by_cases hobj : isObjectRaw p = true
    · simp only [normalizeVersions, hobj, Bool.not_true, Bool.false_eq_true, if_false]
      rw [tabsWF_append2, tabsWF_append2, tabsWF_append2]
      rw [tabsWF_normalizeTabList, tabsWF_normalizeDropdownList, ih]
      simp only [Bool.true_and, Bool.and_true]
      by_cases harr : (p.fields.tabs.isNone && p.fields.dropdowns.isNone) = true
      · simp only [harr, if_true]
        by_cases hc : hasContent p = true
        · simp only [hc, if_true]
          simp [tabsWF, tabWF_normalizeTabCore]
        · simp only [hc, Bool.false_eq_true, if_false]
          by_cases hh : truthyStr p.fields.href = true
          · simp only [hh, if_true]
            simp [tabsWF, tabWF_normalizeTabCore]
          · simp only [hh, Bool.false_eq_true, if_false]
            rfl
      · simp only [harr, Bool.false_eq_true, if_false]
        rfl
    · simp only [normalizeVersions, hobj, Bool.not_eq_true', Bool.not_false, if_true]
      exact ih used (idx + 1)

theorem tabsWF_normalizeAnchorsTop (fuel : Nat) :
    ∀ (l : List Raw) (used : List String) (idx : Nat),
    tabsWF (normalizeAnchorsTop fuel l used idx).1 = true := by
  intro l
  induction l with
  | nil => intro used idx; rfl
  | cons a rest ih =>
    intro used idx
    by_cases hobj : isAnchorLikeRaw a = true
    · simp only [normalizeAnchorsTop, hobj, Bool.not_true, Bool.false_eq_true, if_false]
      rw [tabsWF_append2, ih]
      simp only [Bool.and_true]
      cases htabs : a.fields.tabs with
      | some lt => rw [tabsWF_normalizeTabList]
      | none =>
        by_cases hc : hasContent a = true
        · simp only [hc, if_true]
          simp [tabsWF, tabWF_normalizeTabCore]
        · simp only [hc, Bool.false_eq_true, if_false]
          rfl
    · simp only [normalizeAnchorsTop, hobj, Bool.not_eq_true', Bool.not_false, if_true]
      exact ih used (idx + 1)

theorem tabsWF_assembleTabs (fuel : Nat) (nav : Raw) (used0 : List String) :
    tabsWF (assembleTabs fuel nav used0).1 = true := by
  simp only [assembleTabs]
  rw [tabsWF_append2, tabsWF_append2, tabsWF_append2, tabsWF_append2]
  rw [tabsWF_normalizeTabList, tabsWF_normalizeDropdownList, tabsWF_normalizeProducts,
    tabsWF_normalizeVersions, tabsWF_normalizeAnchorsTop]
  rfl

/-- Every canonical tab list the normalizer produces satisfies the
invariants assumed by the amended C3: slash-free group slugs, non-empty tab
slugs, group-free direct tab pages. -/
theorem normalizer_output_wf (fuel : Nat) (nav : Raw) (used0 : List String) :
    tabsWF (normalizeNavigationTabs fuel nav used0).1 = true := by
  unfold normalizeNavigationTabs
  by_cases hobj : (!isObjectRaw nav) = true
  · rw [if_pos hobj]
    rfl
  · rw [if_neg hobj]
    by_cases hcond : ((assembleTabs fuel nav used0).1.isEmpty
        && (hasNonEmptyList nav.fields.groups || hasNonEmptyList nav.fields.pages
            || hasNonEmptyList nav.fields.menu)) = true
    · rw [if_pos hcond]
      rw [tabsWF_append2, tabsWF_assembleTabs]
      simp [tabsWF, tabWF_normalizeTabCore]
    · rw [if_neg hcond]
      exact tabsWF_assembleTabs fuel nav used0

end Velu
